import Mathlib

/-!
# Anisotropic smoothing: the selection algorithm of `anisotropicSmoothing.h`

A shallow embedding of `AnisotropicSmoothingBase` (files `anisotropicSmoothing.h`
and `anisotropicSmoothing_imp.h`) together with theorems about it.

Conventions of the embedding.

* The C++ type `Real` (a `double`) is read as an exact number and embedded as `ℚ`:
  every decimal literal of the source is the rational it denotes, and `+ - * /`
  are exact.  Rounding, overflow to infinity and NaN are outside the embedding.
* `UInt` values are embedded by their value in `ℕ`.
* Out-of-range `operator[]` and `minCoeff` of an empty vector are undefined
  behaviour in C++; the embedding returns `none` for them.
* An Eigen object that is declared without an initializer or default-constructed
  has unspecified coefficients; the embedding takes them as a parameter.
* The external collaborators (`H`, `cppoptlib::LbfgsbSolver`, `J`,
  `MixedFERegression`) are parameters.  They may carry hidden state (`W`), they
  read the regression configuration they are constructed on, and they do not
  write it.
-/

/-! ## The fine grid: `seq` -/

namespace AnisotropicSmoothingBase

/-- The hard-coded brace initialiser of `result` in `seq`
(`anisotropicSmoothing_imp.h`, line 198): seventy decimal literals. -/
def seqBase : List ℚ :=
  [1.000000e-07, 1.258925e-07, 1.584893e-07, 1.995262e-07, 2.511886e-07,
   3.162278e-07, 3.981072e-07, 5.011872e-07, 6.309573e-07, 7.943282e-07,
   1.000000e-06, 1.258925e-06, 1.584893e-06, 1.995262e-06, 2.511886e-06,
   3.162278e-06, 3.981072e-06, 5.011872e-06, 6.309573e-06, 7.943282e-06,
   1.000000e-05, 1.258925e-05, 1.584893e-05, 1.995262e-05, 2.511886e-05,
   3.162278e-05, 3.981072e-05, 5.011872e-05, 6.309573e-05, 7.943282e-05,
   1.000000e-04, 1.258925e-04, 1.584893e-04, 1.995262e-04, 2.511886e-04,
   3.162278e-04, 3.981072e-04, 5.011872e-04, 6.309573e-04, 7.943282e-04,
   1.000000e-03, 1.258925e-03, 1.584893e-03, 1.995262e-03, 2.511886e-03,
   3.162278e-03, 3.981072e-03, 5.011872e-03, 6.309573e-03, 7.943282e-03,
   1.000000e-02, 1.258925e-02, 1.584893e-02, 1.995262e-02, 2.511886e-02,
   3.162278e-02, 3.981072e-02, 5.011872e-02, 6.309573e-02, 7.943282e-02,
   1.000000e-01, 1.258925e-01, 1.584893e-01, 1.995262e-01, 2.511886e-01,
   3.162278e-01, 3.981072e-01, 5.011872e-01, 6.309573e-01, 7.943282e-01]

/-- The lambda of the `std::transform` in `seq` (line 199):
`el/(1-el)*(n_obs/area)`, with `n_obs` converted to `Real` before the division. -/
def seqTransform (n_obs : ℕ) (area : ℚ) (el : ℚ) : ℚ :=
  el / (1 - el) * ((n_obs : ℚ) / area)

/-- `AnisotropicSmoothingBase::seq` (lines 196-201): the base sequence transformed
element by element, in place. -/
def seq (n_obs : ℕ) (area : ℚ) : List ℚ :=
  seqBase.map (seqTransform n_obs area)

end AnisotropicSmoothingBase

/-! ## Data model -/

/-- The type `TVector` (`H::TVector`, an Eigen 2-vector of `Real`): component `(0)` is
the angle and component `(1)` the intensity of the anisotropy. -/
structure TVector where
  /-- Component `(0)`. -/
  angle : ℚ
  /-- Component `(1)`. -/
  intensity : ℚ
deriving DecidableEq

namespace TVector

/-- Eigen `cwiseMax`: the component-wise maximum. -/
def cwiseMax (a b : TVector) : TVector :=
  ⟨max a.angle b.angle, max a.intensity b.intensity⟩

/-- Eigen `cwiseMin`: the component-wise minimum. -/
def cwiseMin (a b : TVector) : TVector :=
  ⟨min a.angle b.angle, min a.intensity b.intensity⟩

end TVector

/-- The `<cmath>` constant `M_PI`, read as the decimal literal the header defines. -/
def M_PI : ℚ := 3.14159265358979323846

/-- The `<cmath>` constant `M_PI_2`, read as the decimal literal the header defines. -/
def M_PI_2 : ℚ := 1.57079632679489661923

/-- Modelled from the spec: the regression configuration (`InputHandler`, declared in
`regressionData.h`, which is not among the sources), a mutable holder with get/set for
the regularization sequence, the diffusion matrix and the degrees-of-freedom flag.
`other` stands for every member that `smooth` neither reads nor writes. -/
structure RegressionData (Mat Other : Type) where
  /-- The regularization sequence (`getLambda`). -/
  lambda_ : List ℚ
  /-- The diffusion matrix (`getK`). -/
  K_ : Mat
  /-- The degrees-of-freedom flag (`computeDOF`). -/
  DOF_ : Bool
  /-- Locations, observations, covariates, boundary data, GCV method, ... -/
  other : Other

namespace RegressionData

variable {Mat Other : Type}

/-- The setter `setLambda`. -/
def setLambda (rd : RegressionData Mat Other) (l : List ℚ) : RegressionData Mat Other :=
  { rd with lambda_ := l }

/-- The setter `setComputeDOF`. -/
def setComputeDOF (rd : RegressionData Mat Other) (b : Bool) : RegressionData Mat Other :=
  { rd with DOF_ := b }

/-- The setter `setK`. -/
def setK (rd : RegressionData Mat Other) (k : Mat) : RegressionData Mat Other :=
  { rd with K_ := k }

end RegressionData

/-- What `smooth` does that is visible from outside, in program order: the objects it
constructs (with the configuration they are constructed on), the optimizer calls and
the messages it prints.  Elapsed times are not part of the events. -/
inductive Event (Cfg : Type) where
  /-- Line 25, `Rprintf("lambda_[%2d] = %f")`. -/
  | Rprintf_lambda (i : ℕ) (lam : ℚ)
  /-- Line 26, construction of the energy evaluator `H h(mesh_, meshLoc_, regressionData_)`. -/
  | newH (cfg : Cfg)
  /-- Lines 33, 37 and 42, `solver.minimize(h, x)`: the value of `x` before and after. -/
  | minimize (start result : TVector)
  /-- Line 38, `REprintf("Angle equal to pi at iteration = %3u")`. -/
  | REprintf_angle_pi (i : ℕ)
  /-- Line 43, `REprintf("Angle equal to 0 at iteration = %3u")`. -/
  | REprintf_angle_0 (i : ℕ)
  /-- Line 46, the call `h.isValid(x)` and its answer. -/
  | isValid (x : TVector) (answer : Bool)
  /-- Line 47, `REprintf("Optimization failed (value is out of range): (%f, %f)")`. -/
  | REprintf_out_of_range (x : TVector)
  /-- Line 52, `Rprintf("Final anisoParam [%2d]: (%f, %f)")`. -/
  | Rprintf_final (i : ℕ) (x : TVector)
  /-- Line 53, `Rprintf("Time to optimize [%2d]: %f")`. -/
  | Rprintf_time_optimize (i : ℕ)
  /-- Line 60, construction of the cross-validation evaluator `J j(mesh_, meshLoc_, regressionData_)`. -/
  | newJ (cfg : Cfg)
  /-- Line 63, `j.getGCV()` and the vector it returns. -/
  | getGCV (gcvSeq : List ℚ)
  /-- Line 73, `Rprintf("Time to compute GCV [%2d]: %f")`. -/
  | Rprintf_time_gcv (i : ℕ)
  /-- Lines 84-86, `MixedFERegression regressionFinal(mesh_, regressionData_)` and `apply()`. -/
  | regressionFinal (cfg : Cfg)
  /-- Line 93, `Rprintf("Time to compute final regression: %f")`. -/
  | Rprintf_time_final
  /-- Line 94, `Rprintf("Total time: %f")`. -/
  | Rprintf_time_total
  /-- Line 94 of `anisotropicSmoothing.h`,
  `REprintf("Anisotropic smoothing not implemented for such an input handler")`. -/
  | REprintf_not_implemented

/-- The external collaborators of `smooth`, none of which is among the sources.  `W` is
their hidden state (and whatever else they depend on: mesh, locations); each call
receives the configuration the object was constructed on. -/
structure Collaborators (W Mat Other Sol : Type) where
  /-- The call `solver.minimize(h, x)` of `cppoptlib::LbfgsbSolver`: the new value of `x`. -/
  minimize : W → RegressionData Mat Other → TVector → TVector × W
  /-- The validity predicate `h.isValid(x)` of `H`. -/
  isValid : W → RegressionData Mat Other → TVector → Bool
  /-- The static mapping `H::buildKappa` from the parameter to the diffusion matrix. -/
  buildKappa : TVector → Mat
  /-- The scores `j.getGCV()` of `J`. -/
  getGCV : W → RegressionData Mat Other → List ℚ × W
  /-- The final fit: `regressionFinal.apply()` followed by `getSolution()`. -/
  regressionFinal : W → RegressionData Mat Other → Sol × W

/-- The value members of `AnisotropicSmoothingBase` that `smooth` reads
(`anisotropicSmoothing.h`, lines 29-31).  The reference member `regressionData_` is
the shared configuration and lives in `State`; `mesh_` and `meshLoc_` are only handed
to the collaborators. -/
structure AnisotropicSmoothingBase where
  /-- The coarse grid. -/
  lambda_ : List ℚ
  /-- The fine grid. -/
  lambdaCrossVal_ : List ℚ
  /-- The degrees-of-freedom flag saved at construction. -/
  dof_ : Bool

namespace AnisotropicSmoothingBase

variable {W Mat Other Sol : Type}

/-- The constructor (`anisotropicSmoothing.h`, line 59).  `n_obs` is
`regressionData.getNumberofObservations()` and `area` is `mesh.getArea()`. -/
def construct (regressionData : RegressionData Mat Other) (n_obs : ℕ) (area : ℚ) :
    AnisotropicSmoothingBase :=
  { lambda_ := regressionData.lambda_
    lambdaCrossVal_ := seq n_obs area
    dof_ := regressionData.DOF_ }

/-- The scanning loop shared by Eigen `minCoeff(&index)` and `std::min_element`:
`best` is the smallest value so far, `bi` its index, `i` the index of the next
element; a later element replaces `best` only when it is strictly smaller. -/
def minScan : List ℚ → ℕ → ℚ → ℕ → ℚ × ℕ
  | [], _, best, bi => (best, bi)
  | x :: xs, i, best, bi =>
    if x < best then minScan xs (i + 1) x i else minScan xs (i + 1) best bi

/-- Eigen `gcvSeq.minCoeff(&index)` (line 66): the minimum and the index of its
first occurrence; undefined on an empty vector. -/
def minCoeff : List ℚ → Option (ℚ × ℕ)
  | [] => none
  | x :: xs => some (minScan xs 1 x 0)

/-- The index `std::distance(v.cbegin(), std::min_element(v.cbegin(), v.cend()))`
(lines 78-79); on an empty range `min_element` returns `cend()`, at distance 0. -/
def min_element : List ℚ → ℕ
  | [] => 0
  | x :: xs => (minScan xs 1 x 0).2

/-- The mutable data of one outer iteration between lines 33 and 49: `x` is the slot
`anisoParamSmooth[i]`, which the optimizer updates in place. -/
structure Local (W Cfg : Type) where
  /-- The slot `anisoParamSmooth[i]`. -/
  x : TVector
  /-- The hidden state of the collaborators. -/
  world : W
  /-- The events so far. -/
  log : List (Event Cfg)

/-- One call `solver.minimize(h, anisoParamSmooth[i])`, where `h` was constructed on `cfg`. -/
def callMinimize (c : Collaborators W Mat Other Sol) (cfg : RegressionData Mat Other)
    (l : Local W (RegressionData Mat Other)) : Local W (RegressionData Mat Other) :=
  let r := c.minimize l.world cfg l.x
  { x := r.1, world := r.2, log := l.log ++ [Event.minimize l.x r.1] }

/-- Lines 35-39: when the angle equals `M_PI`, set it to `0.`, minimize again, report. -/
def anglePi (c : Collaborators W Mat Other Sol) (cfg : RegressionData Mat Other) (i : ℕ)
    (l : Local W (RegressionData Mat Other)) : Local W (RegressionData Mat Other) :=
  if l.x.angle = M_PI then
    let l1 := callMinimize c cfg { l with x := { l.x with angle := 0 } }
    { l1 with log := l1.log ++ [Event.REprintf_angle_pi i] }
  else l

/-- Lines 40-44: when the angle equals `0.`, set it to `M_PI`, minimize again, report. -/
def angleZero (c : Collaborators W Mat Other Sol) (cfg : RegressionData Mat Other) (i : ℕ)
    (l : Local W (RegressionData Mat Other)) : Local W (RegressionData Mat Other) :=
  if l.x.angle = 0 then
    let l1 := callMinimize c cfg { l with x := { l.x with angle := M_PI } }
    { l1 with log := l1.log ++ [Event.REprintf_angle_0 i] }
  else l

/-- The clamp of line 48: `cwiseMax(TVector(0., 1.)).cwiseMin(TVector(M_PI, 1000.))`. -/
def clamp (x : TVector) : TVector :=
  (x.cwiseMax ⟨0, 1⟩).cwiseMin ⟨M_PI, 1000⟩

/-- Lines 46-49: when `h.isValid` rejects the parameter, report and clamp it. -/
def validity (c : Collaborators W Mat Other Sol) (cfg : RegressionData Mat Other)
    (l : Local W (RegressionData Mat Other)) : Local W (RegressionData Mat Other) :=
  let ok := c.isValid l.world cfg l.x
  if !ok then
    { l with x := clamp l.x
             log := l.log ++ [Event.isValid l.x ok, Event.REprintf_out_of_range l.x] }
  else { l with log := l.log ++ [Event.isValid l.x ok] }

/-- Lines 32-49 of one outer iteration: the first optimizer call, the two periodicity
blocks in source order, then the validity block. -/
def optimize (c : Collaborators W Mat Other Sol) (cfg : RegressionData Mat Other) (i : ℕ)
    (l : Local W (RegressionData Mat Other)) : Local W (RegressionData Mat Other) :=
  validity c cfg (angleZero c cfg i (anglePi c cfg i (callMinimize c cfg l)))

/-- The state of `smooth` at the head of the outer loop: the shared configuration
`regressionData_`, the three local vectors, the collaborators' state and the events. -/
structure State (W Mat Other : Type) where
  /-- The shared regression configuration (the referent of `regressionData_`). -/
  regressionData_ : RegressionData Mat Other
  /-- The hidden state of the collaborators. -/
  world : W
  /-- The local vector `anisoParamSmooth`. -/
  anisoParamSmooth : List TVector
  /-- The local vector `crossValSmoothInd`. -/
  crossValSmoothInd : List ℕ
  /-- The local vector `gcvSmooth`. -/
  gcvSmooth : List ℚ
  /-- The events so far. -/
  log : List (Event (RegressionData Mat Other))

/-- Lines 13-16: the three vectors are allocated with `n_lambda` entries each, the
parameters filled with `TVector(M_PI_2, 5.)`, the others value-initialised. -/
def init (self : AnisotropicSmoothingBase) (rd : RegressionData Mat Other) (w : W) :
    State W Mat Other :=
  { regressionData_ := rd
    world := w
    anisoParamSmooth := List.replicate self.lambda_.length ⟨M_PI_2, 5⟩
    crossValSmoothInd := List.replicate self.lambda_.length 0
    gcvSmooth := List.replicate self.lambda_.length 0
    log := [] }

/-- Lines 28-30: for `i != 0` the slot `i` receives a copy of the slot `i-1`. -/
def warmStart (i : ℕ) (aps : List TVector) : Option (List TVector) :=
  if i ≠ 0 then (aps[i - 1]?).map (fun v => aps.set i v) else some aps

/-- The point of one outer iteration just after line 61: the evaluator `h` has been
used, the evaluator `j` has been constructed and the flag has been set back. -/
structure Mid (W Mat Other : Type) where
  /-- The shared regression configuration after line 61. -/
  regressionData_ : RegressionData Mat Other
  /-- The hidden state of the collaborators. -/
  world : W
  /-- The local vector `anisoParamSmooth` after line 49. -/
  anisoParamSmooth : List TVector
  /-- The configuration the energy evaluator `h` was constructed on (line 26). -/
  h : RegressionData Mat Other
  /-- The configuration the cross-validation evaluator `j` was constructed on (line 60). -/
  j : RegressionData Mat Other
  /-- The events of this iteration up to line 61, in order. -/
  events : List (Event (RegressionData Mat Other))

/-- Lines 22-61 of the loop body for the index `i`: optimization of the anisotropy
for `lambda_[i]` and construction of the cross-validation evaluator. -/
def optimizePart (c : Collaborators W Mat Other Sol) (self : AnisotropicSmoothingBase) (i : ℕ)
    (s : State W Mat Other) : Option (Mid W Mat Other) :=
  match self.lambda_[i]? with
  | none => none
  | some lam =>
    -- line 24
    let rdH := s.regressionData_.setLambda [lam]
    -- lines 28-30
    match warmStart i s.anisoParamSmooth with
    | none => none
    | some aps =>
      match aps[i]? with
      | none => none
      | some x0 =>
        -- lines 32-49, after the events of lines 25-26
        let l := optimize c rdH i
          { x := x0, world := s.world, log := [Event.Rprintf_lambda i lam, Event.newH rdH] }
        -- lines 58-59
        let rdJ := (rdH.setLambda self.lambdaCrossVal_).setComputeDOF true
        some
          { -- line 61
            regressionData_ := rdJ.setComputeDOF self.dof_
            world := l.world
            anisoParamSmooth := aps.set i l.x
            h := rdH
            j := rdJ
            -- lines 52-53 and 60
            events := l.log ++ [Event.Rprintf_final i l.x, Event.Rprintf_time_optimize i,
              Event.newJ rdJ] }

/-- Lines 63-73 of the loop body for the index `i`: the scores of `j`, their minimum
and its index, recorded in the slots `i`. -/
def gcvPart (c : Collaborators W Mat Other Sol) (i : ℕ) (s : State W Mat Other)
    (mid : Mid W Mat Other) : Option (State W Mat Other) :=
  -- line 63
  let g := c.getGCV mid.world mid.j
  -- lines 65-66
  match minCoeff g.1 with
  | none => none
  | some m =>
    some
      { regressionData_ := mid.regressionData_
        world := g.2
        anisoParamSmooth := mid.anisoParamSmooth
        -- line 68
        crossValSmoothInd := s.crossValSmoothInd.set i m.2
        -- line 69
        gcvSmooth := s.gcvSmooth.set i m.1
        log := s.log ++ mid.events ++ [Event.getGCV g.1, Event.Rprintf_time_gcv i] }

/-- The body of the outer loop (lines 22-73) for the index `i`. -/
def iteration (c : Collaborators W Mat Other Sol) (self : AnisotropicSmoothingBase) (i : ℕ)
    (s : State W Mat Other) : Option (State W Mat Other) :=
  (optimizePart c self i s).bind (gcvPart c i s)

/-- The outer loop `for (i = 0; i < n_lambda; i++)` of line 21 after its first `k`
rounds, started in `s0`. -/
def loop (c : Collaborators W Mat Other Sol) (self : AnisotropicSmoothingBase)
    (s0 : State W Mat Other) : ℕ → Option (State W Mat Other)
  | 0 => some s0
  | k + 1 => (loop c self s0 k).bind (iteration c self k)

/-- What is known when `smooth` returns. -/
structure Outcome (W Mat Other Sol : Type) where
  /-- The returned pair `(regressionFinal.getSolution(), anisoParamSmooth[optIndex])`. -/
  ret : Sol × TVector
  /-- The local `optIndex` of line 79. -/
  optIndex : ℕ
  /-- The state after the loop (line 75). -/
  afterLoop : State W Mat Other
  /-- The shared configuration on return. -/
  regressionData_ : RegressionData Mat Other
  /-- The collaborators' state on return. -/
  world : W
  /-- All events of the call. -/
  log : List (Event (RegressionData Mat Other))

/-- The function `smooth` (lines 11-97) with everything it leaves behind; `rd` is the
shared configuration and `w` the collaborators' state when it is called. -/
def smoothRun (c : Collaborators W Mat Other Sol) (self : AnisotropicSmoothingBase)
    (rd : RegressionData Mat Other) (w : W) : Option (Outcome W Mat Other Sol) :=
  -- lines 13-74
  match loop c self (init self rd w) self.lambda_.length with
  | none => none
  | some s =>
    -- lines 78-79
    let optIndex := min_element s.gcvSmooth
    -- line 82
    match s.crossValSmoothInd[optIndex]? with
    | none => none
    | some fineIndex =>
      match self.lambdaCrossVal_[fineIndex]? with
      | none => none
      | some lam =>
        -- line 83
        match s.anisoParamSmooth[optIndex]? with
        | none => none
        | some aniso =>
          let rdF := (s.regressionData_.setLambda [lam]).setK (c.buildKappa aniso)
          -- lines 84-86 and 96
          let r := c.regressionFinal s.world rdF
          some
            { ret := (r.1, aniso)
              optIndex := optIndex
              afterLoop := s
              regressionData_ := rdF
              world := r.2
              log := s.log ++ [Event.regressionFinal rdF, Event.Rprintf_time_final,
                Event.Rprintf_time_total] }

/-- The value returned by `smooth`. -/
def smooth (c : Collaborators W Mat Other Sol) (self : AnisotropicSmoothingBase)
    (rd : RegressionData Mat Other) (w : W) : Option (Sol × TVector) :=
  (smoothRun c self rd w).map (fun o => o.ret)

/-- The optimizer calls among some events, in order: starting point and result. -/
def minimizeCalls {Cfg : Type} : List (Event Cfg) → List (TVector × TVector)
  | [] => []
  | Event.minimize a b :: es => (a, b) :: minimizeCalls es
  | _ :: es => minimizeCalls es

/-- The iteration numbers of the messages "Angle equal to pi" among some events. -/
def anglePiReports {Cfg : Type} : List (Event Cfg) → List ℕ
  | [] => []
  | Event.REprintf_angle_pi i :: es => i :: anglePiReports es
  | _ :: es => anglePiReports es

/-- The iteration numbers of the messages "Angle equal to 0" among some events. -/
def angleZeroReports {Cfg : Type} : List (Event Cfg) → List ℕ
  | [] => []
  | Event.REprintf_angle_0 i :: es => i :: angleZeroReports es
  | _ :: es => angleZeroReports es

/-- The loop of `computeMeshLoc` (`anisotropicSmoothing.h`, lines 66-70) after its first
`k` rounds: round `i` reads `observationsIndices[i]`, asks the mesh for the point with
that id and pushes it back.  `getPoint` is `mesh_.getPoint`. -/
def computeMeshLocLoop {Point : Type} (getPoint : ℕ → Point) (observationsIndices : List ℕ) :
    ℕ → Option (List Point)
  | 0 => some []
  | k + 1 =>
    match computeMeshLocLoop getPoint observationsIndices k with
    | none => none
    | some locations =>
      match observationsIndices[k]? with
      | none => none
      | some id => some (locations ++ [getPoint id])

/-- The member `computeMeshLoc` (`anisotropicSmoothing.h`, lines 61-73).
`isLocationsByNodes` and `observationsIndices` are what the accessors of
`regressionData_` return, `getPoint` is `mesh_.getPoint`. -/
def computeMeshLoc {Point : Type} (isLocationsByNodes : Bool) (observationsIndices : List ℕ)
    (getPoint : ℕ → Point) : Option (List Point) :=
  if isLocationsByNodes then
    computeMeshLocLoop getPoint observationsIndices observationsIndices.length
  else some []

end AnisotropicSmoothingBase

/-! ## The derived class `AnisotropicSmoothing` -/

/-- Modelled from the spec: the members of `RegressionDataElliptic` (declared in
`regressionData.h`, which is not among the sources) besides the regularization
sequence, the diffusion matrix and the degrees-of-freedom flag; one member per
remaining argument of the constructor called in `createRegressionData`. -/
structure EllipticOther (Point VectorXr MatrixXr : Type) where
  /-- The locations (`getLocations`). -/
  locations : List Point
  /-- The observations (`getObservations`). -/
  observations : VectorXr
  /-- The order (`getOrder`). -/
  order : ℕ
  /-- The advection vector (`getBeta`). -/
  beta : ℚ × ℚ
  /-- The reaction coefficient (`getC`). -/
  c : ℚ
  /-- The covariates (`getCovariates`). -/
  covariates : MatrixXr
  /-- The indices of the Dirichlet conditions (`getDirichletIndices`). -/
  dirichletIndices : List ℕ
  /-- The values of the Dirichlet conditions (`getDirichletValues`). -/
  dirichletValues : List ℚ
  /-- The GCV method (`getGCVmethod`). -/
  GCVmethod : ℕ
  /-- The number of realizations (`getNrealizations`). -/
  nrealizations : ℕ

/-- The elliptic configuration: a `RegressionData` whose other members are those of
`EllipticOther`. -/
abbrev RegressionDataElliptic (Mat Point VectorXr MatrixXr : Type) : Type :=
  RegressionData Mat (EllipticOther Point VectorXr MatrixXr)

namespace RegressionDataElliptic

variable {Mat Point VectorXr MatrixXr : Type}

/-- Modelled from the spec: the thirteen-argument constructor of
`RegressionDataElliptic` called in `createRegressionData`, which stores each argument
in the member of the same name. -/
def construct (locations : List Point) (observations : VectorXr) (order : ℕ)
    (lambda : List ℚ) (K : Mat) (beta : ℚ × ℚ) (c : ℚ) (covariates : MatrixXr)
    (dirichletIndices : List ℕ) (dirichletValues : List ℚ) (DOF : Bool) (GCVmethod : ℕ)
    (nrealizations : ℕ) : RegressionDataElliptic Mat Point VectorXr MatrixXr :=
  { lambda_ := lambda
    K_ := K
    DOF_ := DOF
    other :=
      { locations := locations
        observations := observations
        order := order
        beta := beta
        c := c
        covariates := covariates
        dirichletIndices := dirichletIndices
        dirichletValues := dirichletValues
        GCVmethod := GCVmethod
        nrealizations := nrealizations } }

end RegressionDataElliptic

namespace AnisotropicSmoothing

variable {W Mat Other VectorXr Point MatrixXr : Type}

/-- What the `smooth` of the non-specialized `AnisotropicSmoothing` leaves behind. -/
structure Outcome (W Mat Other VectorXr : Type) where
  /-- The returned pair. -/
  ret : List VectorXr × TVector
  /-- The shared configuration on return. -/
  regressionData_ : RegressionData Mat Other
  /-- The collaborators' state on return. -/
  world : W
  /-- All events of the call. -/
  log : List (Event (RegressionData Mat Other))

/-- The `smooth` of the non-specialized template (`anisotropicSmoothing.h`, lines
93-96): one message, then a default-constructed pair.  The vector of the pair is
empty; its `TVector` is default-constructed by Eigen, which leaves its coefficients
unspecified: `unspecified` stands for them. -/
def smooth (rd : RegressionData Mat Other) (w : W) (unspecified : TVector) :
    Outcome W Mat Other VectorXr :=
  { ret := ([], unspecified)
    regressionData_ := rd
    world := w
    log := [Event.REprintf_not_implemented] }

/-- The first overload, `createRegressionData(const Real & lambda)`, of the elliptic
specialization (`anisotropicSmoothing_imp.h`, lines 109-136).  The local `kappa` of
line 114 is declared without an initializer and handed to the constructor as it is:
`kappa` stands for its unspecified content. -/
def createRegressionData_lambda
    (regressionData_ : RegressionDataElliptic Mat Point VectorXr MatrixXr) (kappa : Mat)
    (lambda : ℚ) : RegressionDataElliptic Mat Point VectorXr MatrixXr :=
  let locations := regressionData_.other.locations
  let observations := regressionData_.other.observations
  let uniqueLambda := [lambda]
  let beta := regressionData_.other.beta
  let covariates := regressionData_.other.covariates
  let dirichletIndices := regressionData_.other.dirichletIndices
  let dirichletValues := regressionData_.other.dirichletValues
  RegressionDataElliptic.construct locations observations regressionData_.other.order
    uniqueLambda kappa beta regressionData_.other.c covariates dirichletIndices
    dirichletValues regressionData_.DOF_ regressionData_.other.GCVmethod
    regressionData_.other.nrealizations

/-- The second overload, `createRegressionData(const TVector & anisoParam)`, of the
elliptic specialization (lines 138-164).  `buildKappa` is `H::buildKappa`. -/
def createRegressionData_anisoParam (self : AnisotropicSmoothingBase)
    (regressionData_ : RegressionDataElliptic Mat Point VectorXr MatrixXr)
    (buildKappa : TVector → Mat) (anisoParam : TVector) :
    RegressionDataElliptic Mat Point VectorXr MatrixXr :=
  let locations := regressionData_.other.locations
  let observations := regressionData_.other.observations
  let kappa := buildKappa anisoParam
  let beta := regressionData_.other.beta
  let covariates := regressionData_.other.covariates
  let dirichletIndices := regressionData_.other.dirichletIndices
  let dirichletValues := regressionData_.other.dirichletValues
  RegressionDataElliptic.construct locations observations regressionData_.other.order
    self.lambdaCrossVal_ kappa beta regressionData_.other.c covariates dirichletIndices
    dirichletValues true regressionData_.other.GCVmethod
    regressionData_.other.nrealizations

/-- The third overload, `createRegressionData(const Real & lambda, const TVector &
anisoParam)`, of the elliptic specialization (lines 166-193). -/
def createRegressionData_lambda_anisoParam
    (regressionData_ : RegressionDataElliptic Mat Point VectorXr MatrixXr)
    (buildKappa : TVector → Mat) (lambda : ℚ) (anisoParam : TVector) :
    RegressionDataElliptic Mat Point VectorXr MatrixXr :=
  let locations := regressionData_.other.locations
  let observations := regressionData_.other.observations
  let uniqueLambda := [lambda]
  let kappa := buildKappa anisoParam
  let beta := regressionData_.other.beta
  let covariates := regressionData_.other.covariates
  let dirichletIndices := regressionData_.other.dirichletIndices
  let dirichletValues := regressionData_.other.dirichletValues
  RegressionDataElliptic.construct locations observations regressionData_.other.order
    uniqueLambda kappa beta regressionData_.other.c covariates dirichletIndices
    dirichletValues regressionData_.DOF_ regressionData_.other.GCVmethod
    regressionData_.other.nrealizations

end AnisotropicSmoothing

namespace AnisotropicSmoothingBase

variable {W Mat Other Sol : Type}

/-! ## Predicates used in the statements -/

/-- `FirstMin xs k m`: the value `m` sits at index `k` of `xs`, nothing in `xs` is
smaller, and everything before index `k` is strictly larger. -/
def FirstMin (xs : List ℚ) (k : ℕ) (m : ℚ) : Prop :=
  xs[k]? = some m ∧ (∀ y ∈ xs, m ≤ y) ∧ ∀ (j : ℕ) (y : ℚ), j < k → xs[j]? = some y → m < y

/-- The three local vectors keep the size they were allocated with. -/
def Sized (self : AnisotropicSmoothingBase) (s : State W Mat Other) : Prop :=
  s.anisoParamSmooth.length = self.lambda_.length ∧
  s.crossValSmoothInd.length = self.lambda_.length ∧
  s.gcvSmooth.length = self.lambda_.length

/-- The closed box `[0, M_PI] x [1, 1000]`. -/
def InBox (x : TVector) : Prop :=
  0 ≤ x.angle ∧ x.angle ≤ M_PI ∧ 1 ≤ x.intensity ∧ x.intensity ≤ 1000

/-! ## Concrete runs -/

/-- A configuration with the coarse grid `[0.01, 0.1]`.  The diffusion matrix is
represented by the parameter that generates it; `(0, 1)` stands for the isotropic one. -/
def exampleData : RegressionData TVector Unit :=
  { lambda_ := [0.01, 0.1], K_ := ⟨0, 1⟩, DOF_ := false, other := () }

/-- The orchestrator constructed on `exampleData`, with 4 observations and area 2. -/
def exampleSelf : AnisotropicSmoothingBase :=
  construct exampleData 4 2

/-- Stateless collaborators: the optimizer returns its starting point, the validity
predicate accepts everything, the scores are `[2, 1, 1]`. -/
def exampleCollaborators : Collaborators Unit TVector Unit Unit :=
  { minimize := fun w _ x => (x, w)
    isValid := fun _ _ _ => true
    buildKappa := fun x => x
    getGCV := fun w _ => ([2, 1, 1], w)
    regressionFinal := fun w _ => ((), w) }

/-- Collaborators whose optimizer stays at angle `0` when started there and goes to
angle `M_PI` from anywhere else. -/
def boundaryCollaborators : Collaborators Unit TVector Unit Unit :=
  { exampleCollaborators with
    minimize := fun w _ x => (if x.angle = 0 then ⟨0, x.intensity⟩ else ⟨M_PI, x.intensity⟩, w) }

/-- Collaborators whose optimizer returns `(4, 2000)` and whose validity predicate
accepts everything. -/
def escapingCollaborators : Collaborators Unit TVector Unit Unit :=
  { exampleCollaborators with minimize := fun w _ _ => (⟨4, 2000⟩, w) }

/-- Collaborators whose optimizer returns `(4, 2000)` and whose validity predicate
rejects everything. -/
def rejectingCollaborators : Collaborators Unit TVector Unit Unit :=
  { escapingCollaborators with isValid := fun _ _ _ => false }

/-- The stubs of the end-to-end scenario.  Their state counts the calls of `getGCV` so
far: the optimizer returns its starting point, the validity predicate accepts
`(M_PI_2, 5)` only, and the scores are the fine-grid values `seq n_obs area` at the
first call (outer iteration 0) and twice those values afterwards. -/
def scenarioCollaborators (n_obs : ℕ) (area : ℚ) : Collaborators ℕ TVector Unit Unit :=
  { minimize := fun w _ x => (x, w)
    isValid := fun _ _ x => decide (x = ⟨M_PI_2, 5⟩)
    buildKappa := fun x => x
    getGCV := fun w _ =>
      (if w = 0 then seq n_obs area else (seq n_obs area).map (fun v => 2 * v), w + 1)
    regressionFinal := fun w _ => ((), w) }

/-- Collaborators whose optimizer always returns the angle `M_PI`, keeping the
intensity it was started with. -/
def alwaysPiCollaborators : Collaborators Unit TVector Unit Unit :=
  { exampleCollaborators with minimize := fun w _ x => (⟨M_PI, x.intensity⟩, w) }

/-- An elliptic configuration with the coarse grid `[0.01, 0.1]`, the diffusion matrix
`(0, 1)` (matrices are represented as in `exampleData`) and trivial data. -/
def exampleElliptic : RegressionDataElliptic TVector Unit Unit Unit :=
  RegressionDataElliptic.construct [] () 1 [0.01, 0.1] ⟨0, 1⟩ (0, 0) 0 () [] [] false 0 1

/-- The state of the run of `exampleCollaborators` on `exampleData` after the first
round of the loop. -/
def exampleAfterFirst : State Unit TVector Unit :=
  (loop exampleCollaborators exampleSelf (init exampleSelf exampleData ()) 1).getD
    (init exampleSelf exampleData ())

end AnisotropicSmoothingBase

/-! ## Lemmas -/

namespace AnisotropicSmoothingBase

variable {W Mat Other Sol : Type}

/-! ### The base sequence and its transform -/

theorem seqBase_length : seqBase.length = 70 := rfl

theorem seqBase_chain : seqBase.Chain' (fun a b => 0 < a ∧ a < b ∧ b < 1) := by
  simp only [seqBase, List.chain'_cons, List.chain'_singleton]
  norm_num

theorem seqBase_bounds : ∀ v ∈ seqBase, 0 < v ∧ v < 1 := by
  simp only [seqBase, List.mem_cons, List.mem_singleton, List.not_mem_nil, or_false, forall_eq_or_imp, forall_eq]
  norm_num

theorem seqTransform_pos {n_obs : ℕ} {area v : ℚ} (hn : 0 < n_obs) (ha : 0 < area)
    (h0 : 0 < v) (h1 : v < 1) : 0 < seqTransform n_obs area v := by
  have hn' : (0 : ℚ) < n_obs := by exact_mod_cast hn
  unfold seqTransform
  have : 0 < 1 - v := by linarith
  positivity

theorem seqTransform_lt {n_obs : ℕ} {area a b : ℚ} (hn : 0 < n_obs) (ha : 0 < area)
    (hab : a < b) (h1 : b < 1) :
    seqTransform n_obs area a < seqTransform n_obs area b := by
  have hn' : (0 : ℚ) < n_obs := by exact_mod_cast hn
  unfold seqTransform
  have ha1 : 0 < 1 - a := by linarith
  have hb1 : 0 < 1 - b := by linarith
  have hs : 0 < (n_obs : ℚ) / area := by positivity
  have : a / (1 - a) < b / (1 - b) := by
    rw [div_lt_div_iff₀ ha1 hb1]
    nlinarith
  exact mul_lt_mul_of_pos_right this hs

theorem seq_chain {n_obs : ℕ} {area : ℚ} (hn : 0 < n_obs) (ha : 0 < area) :
    (seq n_obs area).Chain' (· < ·) := by
  unfold seq
  rw [List.chain'_map]
  exact seqBase_chain.imp (fun a b h => seqTransform_lt hn ha h.2.1 h.2.2)

/-! ### The minimum scans -/

theorem firstMin_snoc_lt {pre : List ℚ} {bi : ℕ} {best x : ℚ} (h : FirstMin pre bi best)
    (hx : x < best) : FirstMin (pre ++ [x]) pre.length x := by
  refine ⟨by simp, ?_, ?_⟩
  · intro y hy
    rcases List.mem_append.mp hy with hy | hy
    · exact le_of_lt (lt_of_lt_of_le hx (h.2.1 y hy))
    · simp at hy; simp [hy]
  · intro j y hj hy
    rw [List.getElem?_append_left hj] at hy
    exact lt_of_lt_of_le hx (h.2.1 y (List.getElem?_mem hy))

theorem firstMin_snoc_ge {pre : List ℚ} {bi : ℕ} {best x : ℚ} (h : FirstMin pre bi best)
    (hx : ¬ x < best) : FirstMin (pre ++ [x]) bi best := by
  have hbi : bi < pre.length := by
    by_contra hc
    have := h.1
    rw [List.getElem?_eq_none (by omega)] at this
    exact absurd this (by simp)
  refine ⟨by rw [List.getElem?_append_left hbi]; exact h.1, ?_, ?_⟩
  · intro y hy
    rcases List.mem_append.mp hy with hy | hy
    · exact h.2.1 y hy
    · simp at hy; rw [hy]; exact not_lt.mp hx
  · intro j y hj hy
    rw [List.getElem?_append_left (by omega)] at hy
    exact h.2.2 j y hj hy

theorem minScan_firstMin (xs : List ℚ) : ∀ (pre : List ℚ) (best : ℚ) (bi : ℕ),
    FirstMin pre bi best →
    FirstMin (pre ++ xs) (minScan xs pre.length best bi).2 (minScan xs pre.length best bi).1 := by
  induction xs with
  | nil => intro pre best bi h; simpa [minScan] using h
  | cons x xs ih =>
    intro pre best bi h
    have e : pre ++ x :: xs = (pre ++ [x]) ++ xs := by simp
    have l : pre.length + 1 = (pre ++ [x]).length := by simp
    unfold minScan
    split_ifs with hx
    · rw [e, l]; exact ih _ _ _ (firstMin_snoc_lt h hx)
    · rw [e, l]; exact ih _ _ _ (firstMin_snoc_ge h hx)

theorem firstMin_singleton (x : ℚ) : FirstMin [x] 0 x := by
  refine ⟨by simp, by simp, ?_⟩
  intro j y hj; omega

theorem minCoeff_firstMin {xs : List ℚ} (hne : xs ≠ []) :
    ∃ m k, minCoeff xs = some (m, k) ∧ FirstMin xs k m := by
  cases xs with
  | nil => exact absurd rfl hne
  | cons x xs =>
    exact ⟨_, _, rfl, by simpa using minScan_firstMin xs [x] x 0 (firstMin_singleton x)⟩

theorem min_element_firstMin {xs : List ℚ} (hne : xs ≠ []) :
    ∃ m, FirstMin xs (min_element xs) m := by
  cases xs with
  | nil => exact absurd rfl hne
  | cons x xs =>
    exact ⟨_, by simpa [min_element] using minScan_firstMin xs [x] x 0 (firstMin_singleton x)⟩

theorem FirstMin.lt_length {xs : List ℚ} {k : ℕ} {m : ℚ} (h : FirstMin xs k m) :
    k < xs.length := by
  by_contra hc
  have := h.1
  rw [List.getElem?_eq_none (by omega)] at this
  exact absurd this (by simp)

/-! ### The loop body: sizes of the local vectors -/

/-- The starting point of the first optimizer call of iteration `i`, read off the
state at the head of the loop: slot `i` itself for `i = 0`, slot `i - 1` otherwise. -/
theorem warmStart_get {i : ℕ} {aps : List TVector} (hi : i < aps.length) :
    ∃ x0 aps1, (if i = 0 then aps[0]? else aps[i - 1]?) = some x0 ∧
      warmStart i aps = some aps1 ∧ aps1[i]? = some x0 ∧
      ∀ y, aps1.set i y = aps.set i y := by
  by_cases h0 : i = 0
  · subst h0
    exact ⟨aps[0], aps, by simp [List.getElem?_eq_getElem hi], by simp [warmStart],
      by simp [List.getElem?_eq_getElem hi], fun _ => rfl⟩
  · have h1 : i - 1 < aps.length := by omega
    refine ⟨aps[i - 1], aps.set i aps[i - 1], by simp [h0, List.getElem?_eq_getElem h1],
      by simp [warmStart, h0, List.getElem?_eq_getElem h1], ?_, ?_⟩
    · simp [List.getElem?_set, hi]
    · intro y; simp

theorem optimizePart_eq (c : Collaborators W Mat Other Sol) (self : AnisotropicSmoothingBase)
    (i : ℕ) (s : State W Mat Other) (hi : i < self.lambda_.length)
    (hlen : s.anisoParamSmooth.length = self.lambda_.length) :
    ∃ lam x0 mid, self.lambda_[i]? = some lam ∧
      (if i = 0 then s.anisoParamSmooth[0]? else s.anisoParamSmooth[i - 1]?) = some x0 ∧
      optimizePart c self i s = some mid ∧
      mid.h = s.regressionData_.setLambda [lam] ∧
      mid.j = (mid.h.setLambda self.lambdaCrossVal_).setComputeDOF true ∧
      mid.regressionData_ = mid.j.setComputeDOF self.dof_ ∧
      mid.world = (optimize c mid.h i ⟨x0, s.world,
        [Event.Rprintf_lambda i lam, Event.newH mid.h]⟩).world ∧
      mid.anisoParamSmooth = s.anisoParamSmooth.set i (optimize c mid.h i ⟨x0, s.world,
        [Event.Rprintf_lambda i lam, Event.newH mid.h]⟩).x ∧
      mid.events = (optimize c mid.h i ⟨x0, s.world,
        [Event.Rprintf_lambda i lam, Event.newH mid.h]⟩).log ++
        [Event.Rprintf_final i (optimize c mid.h i ⟨x0, s.world,
          [Event.Rprintf_lambda i lam, Event.newH mid.h]⟩).x,
         Event.Rprintf_time_optimize i, Event.newJ mid.j] := by
  obtain ⟨x0, aps1, hx0, hw, hget, hset⟩ := warmStart_get (hlen ▸ hi)
  simp only [optimizePart, List.getElem?_eq_getElem hi, hw, hget]
  exact ⟨_, x0, _, rfl, hx0, rfl, rfl, rfl, rfl, rfl, hset _, rfl⟩

theorem gcvPart_length {c : Collaborators W Mat Other Sol} {i : ℕ} {s s1 : State W Mat Other}
    {mid : Mid W Mat Other} (h : gcvPart c i s mid = some s1) :
    s1.anisoParamSmooth = mid.anisoParamSmooth ∧
    s1.crossValSmoothInd.length = s.crossValSmoothInd.length ∧
    s1.gcvSmooth.length = s.gcvSmooth.length := by
  simp only [gcvPart] at h
  split at h
  · exact absurd h (by simp)
  · simp only [Option.some.injEq] at h
    subst h
    simp

theorem sized_init (self : AnisotropicSmoothingBase) (rd : RegressionData Mat Other) (w : W) :
    Sized self (init self rd w) :=
  ⟨by simp [init], by simp [init], by simp [init]⟩

theorem iteration_sized {c : Collaborators W Mat Other Sol} {self : AnisotropicSmoothingBase}
    {i : ℕ} {s s1 : State W Mat Other} (hi : i < self.lambda_.length) (hs : Sized self s)
    (h : iteration c self i s = some s1) : Sized self s1 := by
  obtain ⟨lam, x0, mid, -, -, hmid, -, -, -, -, haps, -⟩ := optimizePart_eq c self i s hi hs.1
  simp only [iteration, hmid, Option.some_bind] at h
  obtain ⟨h1, h2, h3⟩ := gcvPart_length h
  exact ⟨by rw [h1, haps, List.length_set, hs.1], by rw [h2, hs.2.1], by rw [h3, hs.2.2]⟩

theorem loop_sized {c : Collaborators W Mat Other Sol} {self : AnisotropicSmoothingBase}
    {rd : RegressionData Mat Other} {w : W} :
    ∀ {k : ℕ} {s : State W Mat Other}, loop c self (init self rd w) k = some s →
      k ≤ self.lambda_.length → Sized self s := by
  intro k
  induction k with
  | zero => intro s h _; simp only [loop, Option.some.injEq] at h; subst h; exact sized_init _ _ _
  | succ k ih =>
    intro s h hk
    simp only [loop] at h
    obtain ⟨s0, h0, h1⟩ := Option.bind_eq_some.mp h
    exact iteration_sized (by omega) (ih h0 (by omega)) h1

/-! ### The optimization block -/

theorem minimizeCalls_append {Cfg : Type} (xs ys : List (Event Cfg)) :
    minimizeCalls (xs ++ ys) = minimizeCalls xs ++ minimizeCalls ys := by
  induction xs with
  | nil => rfl
  | cons e es ih => cases e <;> simp [minimizeCalls, ih]

theorem M_PI_pos : 0 < M_PI := by norm_num [M_PI]

theorem M_PI_ne_zero : M_PI ≠ 0 := ne_of_gt M_PI_pos

theorem M_PI_2_eq : M_PI_2 = M_PI / 2 := by norm_num [M_PI, M_PI_2]

theorem clamp_inBox (x : TVector) : InBox (clamp x) := by
  have := M_PI_pos
  refine ⟨?_, ?_, ?_, ?_⟩ <;> simp [clamp, TVector.cwiseMax, TVector.cwiseMin, le_of_lt M_PI_pos]

/-- The validity block appends the check (and the report) to the events, makes no
optimizer call and stores the clamp exactly when the predicate rejects. -/
theorem validity_spec (c : Collaborators W Mat Other Sol) (cfg : RegressionData Mat Other)
    (l : Local W (RegressionData Mat Other)) :
    ∃ post, (validity c cfg l).log = l.log ++ Event.isValid l.x (c.isValid l.world cfg l.x) :: post ∧
      minimizeCalls post = [] ∧ (validity c cfg l).world = l.world ∧
      (validity c cfg l).x = if c.isValid l.world cfg l.x then l.x else clamp l.x := by
  unfold validity
  cases h : c.isValid l.world cfg l.x
  · exact ⟨[Event.REprintf_out_of_range l.x], by simp, rfl, rfl, by simp⟩
  · exact ⟨[], by simp, rfl, rfl, by simp⟩

/-- The optimizer calls of lines 32-49, spelled out: one call; a second one from angle
`0` when the first returns `M_PI`; and one from angle `M_PI` when the angle then held
is `0`. -/
theorem optimize_calls (c : Collaborators W Mat Other Sol) (cfg : RegressionData Mat Other)
    (i : ℕ) (l : Local W (RegressionData Mat Other)) :
    minimizeCalls (optimize c cfg i l).log = minimizeCalls l.log ++
      (if (c.minimize l.world cfg l.x).1.angle = M_PI then
        (if (c.minimize (c.minimize l.world cfg l.x).2 cfg
              ⟨0, (c.minimize l.world cfg l.x).1.intensity⟩).1.angle = 0 then
          [(l.x, (c.minimize l.world cfg l.x).1),
           (⟨0, (c.minimize l.world cfg l.x).1.intensity⟩,
            (c.minimize (c.minimize l.world cfg l.x).2 cfg
              ⟨0, (c.minimize l.world cfg l.x).1.intensity⟩).1),
           (⟨M_PI, (c.minimize (c.minimize l.world cfg l.x).2 cfg
              ⟨0, (c.minimize l.world cfg l.x).1.intensity⟩).1.intensity⟩,
            (c.minimize (c.minimize (c.minimize l.world cfg l.x).2 cfg
              ⟨0, (c.minimize l.world cfg l.x).1.intensity⟩).2 cfg
              ⟨M_PI, (c.minimize (c.minimize l.world cfg l.x).2 cfg
                ⟨0, (c.minimize l.world cfg l.x).1.intensity⟩).1.intensity⟩).1)]
        else
          [(l.x, (c.minimize l.world cfg l.x).1),
           (⟨0, (c.minimize l.world cfg l.x).1.intensity⟩,
            (c.minimize (c.minimize l.world cfg l.x).2 cfg
              ⟨0, (c.minimize l.world cfg l.x).1.intensity⟩).1)])
      else if (c.minimize l.world cfg l.x).1.angle = 0 then
        [(l.x, (c.minimize l.world cfg l.x).1),
         (⟨M_PI, (c.minimize l.world cfg l.x).1.intensity⟩,
          (c.minimize (c.minimize l.world cfg l.x).2 cfg
            ⟨M_PI, (c.minimize l.world cfg l.x).1.intensity⟩).1)]
      else [(l.x, (c.minimize l.world cfg l.x).1)]) := by
  obtain ⟨post, hlog, hpost, -, -⟩ :=
    validity_spec c cfg (angleZero c cfg i (anglePi c cfg i (callMinimize c cfg l)))
  simp only [optimize, hlog, minimizeCalls_append, minimizeCalls, hpost, List.append_nil]
  simp only [angleZero, anglePi, callMinimize]
  split_ifs <;> simp [minimizeCalls_append, minimizeCalls]

/-- The first optimizer call of the block starts from the value the slot holds on entry. -/
theorem optimize_first_call (c : Collaborators W Mat Other Sol) (cfg : RegressionData Mat Other)
    (i : ℕ) (l : Local W (RegressionData Mat Other)) :
    ∃ rest, minimizeCalls (optimize c cfg i l).log =
      minimizeCalls l.log ++ (l.x, (c.minimize l.world cfg l.x).1) :: rest := by
  rw [optimize_calls]
  split_ifs <;> exact ⟨_, rfl⟩

/-- What `optimizePart` leaves behind, in terms of the state at the head of the loop. -/
theorem optimizePart_spec (c : Collaborators W Mat Other Sol) (self : AnisotropicSmoothingBase)
    (i : ℕ) (s : State W Mat Other) (hi : i < self.lambda_.length)
    (hlen : s.anisoParamSmooth.length = self.lambda_.length) :
    ∃ lam x0 mid l, self.lambda_[i]? = some lam ∧
      (if i = 0 then s.anisoParamSmooth[0]? else s.anisoParamSmooth[i - 1]?) = some x0 ∧
      optimizePart c self i s = some mid ∧
      mid.h = s.regressionData_.setLambda [lam] ∧
      mid.j = (mid.h.setLambda self.lambdaCrossVal_).setComputeDOF true ∧
      mid.regressionData_ = mid.j.setComputeDOF self.dof_ ∧
      l = optimize c mid.h i ⟨x0, s.world, [Event.Rprintf_lambda i lam, Event.newH mid.h]⟩ ∧
      mid.world = l.world ∧
      mid.anisoParamSmooth = s.anisoParamSmooth.set i l.x ∧
      mid.events = l.log ++
        [Event.Rprintf_final i l.x, Event.Rprintf_time_optimize i, Event.newJ mid.j] ∧
      minimizeCalls mid.events = minimizeCalls l.log := by
  obtain ⟨lam, x0, mid, h1, h2, h3, h4, h5, h6, h7, h8, h9⟩ := optimizePart_eq c self i s hi hlen
  exact ⟨lam, x0, mid, _, h1, h2, h3, h4, h5, h6, rfl, h7, h8, h9, by
    rw [h9, minimizeCalls_append]; simp [minimizeCalls]⟩

/-! ### The cross-validation block and the rounds of the loop -/

/-- On a non-empty score vector the cross-validation block succeeds and records the
first minimum in the slots `i`. -/
theorem gcvPart_spec (c : Collaborators W Mat Other Sol) (i : ℕ) (s : State W Mat Other)
    (mid : Mid W Mat Other) (hne : (c.getGCV mid.world mid.j).1 ≠ []) :
    ∃ m k s1, gcvPart c i s mid = some s1 ∧ FirstMin (c.getGCV mid.world mid.j).1 k m ∧
      s1.regressionData_ = mid.regressionData_ ∧
      s1.world = (c.getGCV mid.world mid.j).2 ∧
      s1.anisoParamSmooth = mid.anisoParamSmooth ∧
      s1.crossValSmoothInd = s.crossValSmoothInd.set i k ∧
      s1.gcvSmooth = s.gcvSmooth.set i m ∧
      s1.log = s.log ++ mid.events ++
        [Event.getGCV (c.getGCV mid.world mid.j).1, Event.Rprintf_time_gcv i] := by
  obtain ⟨m, k, hmin, hfm⟩ := minCoeff_firstMin hne
  simp only [gcvPart, hmin]
  exact ⟨m, k, _, rfl, hfm, rfl, rfl, rfl, rfl, rfl, rfl⟩

/-- A successful cross-validation block had a non-empty score vector. -/
theorem gcvPart_ne_nil {c : Collaborators W Mat Other Sol} {i : ℕ} {s s1 : State W Mat Other}
    {mid : Mid W Mat Other} (h : gcvPart c i s mid = some s1) :
    (c.getGCV mid.world mid.j).1 ≠ [] := by
  intro hnil
  simp [gcvPart, hnil, minCoeff] at h

/-- One more round of the loop, taken apart. -/
theorem loop_succ_eq_some {c : Collaborators W Mat Other Sol} {self : AnisotropicSmoothingBase}
    {s0 s1 : State W Mat Other} {k : ℕ} :
    loop c self s0 (k + 1) = some s1 ↔
      ∃ s mid, loop c self s0 k = some s ∧ optimizePart c self k s = some mid ∧
        gcvPart c k s mid = some s1 := by
  simp only [loop, iteration, Option.bind_eq_some]
  constructor
  · rintro ⟨s, hs, mid, hmid, h⟩; exact ⟨s, mid, hs, hmid, h⟩
  · rintro ⟨s, mid, hs, hmid, h⟩; exact ⟨s, hs, mid, hmid, h⟩

/-- When the evaluator never returns an empty score vector, the loop reaches every
index up to `n_lambda`. -/
theorem loop_total (c : Collaborators W Mat Other Sol) (self : AnisotropicSmoothingBase)
    (rd : RegressionData Mat Other) (w : W) (hG : ∀ w cfg, (c.getGCV w cfg).1 ≠ []) :
    ∀ k, k ≤ self.lambda_.length → ∃ s, loop c self (init self rd w) k = some s := by
  intro k
  induction k with
  | zero => intro _; exact ⟨_, rfl⟩
  | succ k ih =>
    intro hk
    obtain ⟨s, hs⟩ := ih (by omega)
    obtain ⟨_, _, mid, _, -, -, hmid, -⟩ :=
      optimizePart_spec c self k s (by omega) (loop_sized hs (by omega)).1
    obtain ⟨_, _, s1, h1, -⟩ := gcvPart_spec c k s mid (hG _ _)
    exact ⟨s1, loop_succ_eq_some.mpr ⟨s, mid, hs, hmid, h1⟩⟩

/-- A round of the loop writes the slots of its own index only. -/
theorem loop_succ_slots {c : Collaborators W Mat Other Sol} {self : AnisotropicSmoothingBase}
    {rd : RegressionData Mat Other} {w : W} {k : ℕ} {s s1 : State W Mat Other}
    (hk : k < self.lambda_.length)
    (hs : loop c self (init self rd w) k = some s)
    (hs1 : loop c self (init self rd w) (k + 1) = some s1) (j : ℕ) (hj : j ≠ k) :
    s1.anisoParamSmooth[j]? = s.anisoParamSmooth[j]? ∧
    s1.crossValSmoothInd[j]? = s.crossValSmoothInd[j]? ∧
    s1.gcvSmooth[j]? = s.gcvSmooth[j]? := by
  obtain ⟨s', mid, hs', hmid, hg⟩ := loop_succ_eq_some.mp hs1
  rw [hs] at hs'
  obtain rfl : s = s' := by simpa using hs'
  obtain ⟨_, _, mid', _, -, -, hmid', -, -, -, -, -, haps, -⟩ :=
    optimizePart_spec c self k s hk (loop_sized hs (by omega)).1
  rw [hmid] at hmid'
  obtain rfl : mid = mid' := by simpa using hmid'
  obtain ⟨m, k', s1', h1, -, -, -, e1, e2, e3, -⟩ := gcvPart_spec c k s mid (gcvPart_ne_nil hg)
  rw [hg] at h1
  obtain rfl : s1 = s1' := by simpa using h1
  rw [e1, e2, e3, haps]
  exact ⟨List.getElem?_set_ne hj.symm, List.getElem?_set_ne hj.symm, List.getElem?_set_ne hj.symm⟩

/-- Once round `i` is over, later rounds leave the slots `i` alone. -/
theorem loop_slots_stable {c : Collaborators W Mat Other Sol} {self : AnisotropicSmoothingBase}
    {rd : RegressionData Mat Other} {w : W} {i : ℕ} {si : State W Mat Other}
    (hsi : loop c self (init self rd w) (i + 1) = some si) :
    ∀ (d : ℕ) (sk : State W Mat Other), i + 1 + d ≤ self.lambda_.length →
      loop c self (init self rd w) (i + 1 + d) = some sk →
      sk.anisoParamSmooth[i]? = si.anisoParamSmooth[i]? ∧
      sk.crossValSmoothInd[i]? = si.crossValSmoothInd[i]? ∧
      sk.gcvSmooth[i]? = si.gcvSmooth[i]? := by
  intro d
  induction d with
  | zero =>
    intro sk _ hsk
    rw [Nat.add_zero, hsi] at hsk
    obtain rfl : si = sk := by simpa using hsk
    exact ⟨rfl, rfl, rfl⟩
  | succ d ih =>
    intro sk hle hsk
    obtain ⟨s, mid, hs, hmid, hg⟩ := loop_succ_eq_some.mp (by rw [← Nat.add_assoc] at hsk; exact hsk)
    obtain ⟨a1, a2, a3⟩ := ih s (by omega) hs
    obtain ⟨b1, b2, b3⟩ := loop_succ_slots (by omega) hs
      (by rw [← Nat.add_assoc] at hsk; exact hsk) i (by omega)
    exact ⟨b1.trans a1, b2.trans a2, b3.trans a3⟩

/-- What round `i` of the loop records, read off the state after it. -/
theorem loop_succ_recorded {c : Collaborators W Mat Other Sol} {self : AnisotropicSmoothingBase}
    {rd : RegressionData Mat Other} {w : W} {i : ℕ} {s1 : State W Mat Other}
    (hi : i < self.lambda_.length)
    (hs1 : loop c self (init self rd w) (i + 1) = some s1) :
    ∃ s mid m k, loop c self (init self rd w) i = some s ∧
      optimizePart c self i s = some mid ∧
      FirstMin (c.getGCV mid.world mid.j).1 k m ∧
      s1.regressionData_ = mid.regressionData_ ∧
      s1.anisoParamSmooth = mid.anisoParamSmooth ∧
      s1.crossValSmoothInd[i]? = some k ∧ s1.gcvSmooth[i]? = some m := by
  obtain ⟨s, mid, hs, hmid, hg⟩ := loop_succ_eq_some.mp hs1
  obtain ⟨m, k, s1', h1, hfm, e0, -, e1, e2, e3, -⟩ :=
    gcvPart_spec c i s mid (gcvPart_ne_nil hg)
  rw [hg] at h1
  obtain rfl : s1 = s1' := by simpa using h1
  have hsz := loop_sized hs (by omega)
  refine ⟨s, mid, m, k, hs, hmid, hfm, e0, e1, ?_, ?_⟩
  · rw [e2, List.getElem?_set_self (by rw [hsz.2.1]; exact hi)]
  · rw [e3, List.getElem?_set_self (by rw [hsz.2.2]; exact hi)]

/-- The events of round `i`: those of lines 22-61 followed by the call of `getGCV` and
the timing message. -/
theorem loop_succ_log {c : Collaborators W Mat Other Sol} {self : AnisotropicSmoothingBase}
    {rd : RegressionData Mat Other} {w : W} {i : ℕ} {s s1 : State W Mat Other}
    {mid : Mid W Mat Other} (hs : loop c self (init self rd w) i = some s)
    (hmid : optimizePart c self i s = some mid)
    (hs1 : loop c self (init self rd w) (i + 1) = some s1) :
    s1.anisoParamSmooth = mid.anisoParamSmooth ∧
    s1.log = s.log ++ mid.events ++
      [Event.getGCV (c.getGCV mid.world mid.j).1, Event.Rprintf_time_gcv i] := by
  obtain ⟨s2, mid2, hs2, hmid2, hg⟩ := loop_succ_eq_some.mp hs1
  rw [hs] at hs2
  obtain rfl : s = s2 := by simpa using hs2
  rw [hmid] at hmid2
  obtain rfl : mid = mid2 := by simpa using hmid2
  obtain ⟨_, _, s3, h3, -, -, -, e1, -, -, elog⟩ := gcvPart_spec c i s mid (gcvPart_ne_nil hg)
  rw [hg] at h3
  obtain rfl : s1 = s3 := by simpa using h3
  exact ⟨e1, elog⟩

/-- The loop never writes the diffusion matrix nor the untouched members of the shared
configuration, and after at least one round the flag is the saved `dof_`. -/
theorem loop_config {c : Collaborators W Mat Other Sol} {self : AnisotropicSmoothingBase}
    {rd : RegressionData Mat Other} {w : W} :
    ∀ {k : ℕ} {s : State W Mat Other}, loop c self (init self rd w) k = some s →
      k ≤ self.lambda_.length →
      s.regressionData_.K_ = rd.K_ ∧ s.regressionData_.other = rd.other ∧
      (0 < k → s.regressionData_.DOF_ = self.dof_) := by
  intro k
  induction k with
  | zero =>
    intro s h _
    simp only [loop, Option.some.injEq] at h
    subst h
    exact ⟨rfl, rfl, fun h => absurd h (by omega)⟩
  | succ k ih =>
    intro s1 h hk
    obtain ⟨s, mid, _, _, hs, hmid, -, e0, -⟩ := loop_succ_recorded (by omega) h
    obtain ⟨_, _, mid', _, -, -, hmid', eh, ej, er, -⟩ :=
      optimizePart_spec c self k s (by omega) (loop_sized hs (by omega)).1
    rw [hmid] at hmid'
    obtain rfl : mid = mid' := by simpa using hmid'
    obtain ⟨a1, a2, -⟩ := ih hs (by omega)
    rw [e0, er, ej, eh]
    exact ⟨a1, a2, fun _ => rfl⟩

/-- After the loop every recorded fine index is below the length of the score vector
it was taken from, hence below any bound on those lengths. -/
theorem loop_index_bound {c : Collaborators W Mat Other Sol} {self : AnisotropicSmoothingBase}
    {rd : RegressionData Mat Other} {w : W} {L : ℕ}
    (hL : ∀ w cfg, (c.getGCV w cfg).1.length ≤ L) :
    ∀ {k : ℕ} {s : State W Mat Other}, loop c self (init self rd w) k = some s →
      k ≤ self.lambda_.length →
      ∀ i, i < k → ∃ f, s.crossValSmoothInd[i]? = some f ∧ f < L := by
  intro k
  induction k with
  | zero => intro s _ _ i hi; omega
  | succ k ih =>
    intro s1 h hk i hi
    obtain ⟨s, mid, m, f, hs, hmid, hfm, -, -, e2, -⟩ := loop_succ_recorded (by omega) h
    by_cases hik : i = k
    · subst hik
      exact ⟨f, e2, lt_of_lt_of_le hfm.lt_length (hL _ _)⟩
    · obtain ⟨f', hf', hlt⟩ := ih hs (by omega) i (by omega)
      exact ⟨f', by rw [(loop_succ_slots (by omega) hs h i hik).2.1, hf'], hlt⟩

/-! ### After the loop -/

/-- The part of `smooth` after the loop, spelled out.  With a non-empty coarse grid and
score vectors that are never empty and never longer than the fine grid, `smooth`
returns. -/
theorem smoothRun_spec (c : Collaborators W Mat Other Sol) (self : AnisotropicSmoothingBase)
    (rd : RegressionData Mat Other) (w : W) (hne : self.lambda_ ≠ [])
    (hG : ∀ w cfg, (c.getGCV w cfg).1 ≠ [] ∧
      (c.getGCV w cfg).1.length ≤ self.lambdaCrossVal_.length) :
    ∃ o s m fine lam aniso,
      loop c self (init self rd w) self.lambda_.length = some s ∧
      smoothRun c self rd w = some o ∧ o.afterLoop = s ∧
      o.optIndex = min_element s.gcvSmooth ∧ o.optIndex < self.lambda_.length ∧
      FirstMin s.gcvSmooth o.optIndex m ∧
      s.crossValSmoothInd[o.optIndex]? = some fine ∧
      self.lambdaCrossVal_[fine]? = some lam ∧
      s.anisoParamSmooth[o.optIndex]? = some aniso ∧
      o.regressionData_ = (s.regressionData_.setLambda [lam]).setK (c.buildKappa aniso) ∧
      o.ret = ((c.regressionFinal s.world o.regressionData_).1, aniso) ∧
      o.log = s.log ++ [Event.regressionFinal o.regressionData_, Event.Rprintf_time_final,
        Event.Rprintf_time_total] := by
  obtain ⟨s, hs⟩ := loop_total c self rd w (fun w cfg => (hG w cfg).1) _ le_rfl
  have hsz := loop_sized hs le_rfl
  have hgne : s.gcvSmooth ≠ [] := by
    intro h
    have := hsz.2.2
    rw [h] at this
    exact hne (List.length_eq_zero.mp this.symm)
  obtain ⟨m, hfm⟩ := min_element_firstMin hgne
  have hopt : min_element s.gcvSmooth < self.lambda_.length := by
    rw [← hsz.2.2]; exact hfm.lt_length
  obtain ⟨fine, hfine, hlt⟩ := loop_index_bound (fun w cfg => (hG w cfg).2) hs le_rfl _ hopt
  obtain ⟨aniso, haps⟩ : ∃ a, s.anisoParamSmooth[min_element s.gcvSmooth]? = some a :=
    ⟨_, List.getElem?_eq_getElem (by rw [hsz.1]; exact hopt)⟩
  simp only [smoothRun, hs, hfine, List.getElem?_eq_getElem hlt, haps]
  exact ⟨_, s, m, fine, self.lambdaCrossVal_[fine], aniso, rfl, rfl, rfl, rfl, hopt, hfm, hfine,
    List.getElem?_eq_getElem hlt, haps, rfl, rfl, rfl⟩

/-! ### The validity check and the evaluators of one iteration -/

/-- After the two periodicity blocks the slot holds the result of the last optimizer
call made so far. -/
theorem periodic_last_call (c : Collaborators W Mat Other Sol) (cfg : RegressionData Mat Other)
    (i : ℕ) (l : Local W (RegressionData Mat Other)) :
    ∃ evs, (angleZero c cfg i (anglePi c cfg i (callMinimize c cfg l))).log = l.log ++ evs ∧
      ((minimizeCalls evs).getLast?).map Prod.snd =
        some (angleZero c cfg i (anglePi c cfg i (callMinimize c cfg l))).x := by
  simp only [angleZero, anglePi, callMinimize]
  split_ifs
  · exact ⟨_, by simp only [List.append_assoc]; rfl, by simp [minimizeCalls]⟩
  · exact ⟨_, by simp only [List.append_assoc]; rfl, by simp [minimizeCalls]⟩
  · exact ⟨_, by simp only [List.append_assoc]; rfl, by simp [minimizeCalls]⟩
  · exact ⟨_, rfl, by simp [minimizeCalls]⟩

/-- The validity check of `optimizePart`: where it sits among the events of the
iteration, what it is asked and what is stored afterwards. -/
theorem optimizePart_validity (c : Collaborators W Mat Other Sol)
    (self : AnisotropicSmoothingBase) (i : ℕ) (s : State W Mat Other)
    (hi : i < self.lambda_.length)
    (hlen : s.anisoParamSmooth.length = self.lambda_.length) :
    ∃ mid xv pre post, optimizePart c self i s = some mid ∧
      mid.events = pre ++ Event.isValid xv (c.isValid mid.world mid.h xv) :: post ∧
      minimizeCalls post = [] ∧
      ((minimizeCalls pre).getLast?).map Prod.snd = some xv ∧
      mid.anisoParamSmooth[i]? =
        some (if c.isValid mid.world mid.h xv = true then xv else clamp xv) := by
  obtain ⟨lam, x0, mid, l, -, -, hmid, -, -, -, hl, hw, haps, hev, -⟩ :=
    optimizePart_spec c self i s hi hlen
  obtain ⟨evs, hlog, hlast⟩ := periodic_last_call c mid.h i
    ⟨x0, s.world, [Event.Rprintf_lambda i lam, Event.newH mid.h]⟩
  generalize hP : angleZero c mid.h i (anglePi c mid.h i (callMinimize c mid.h
      ⟨x0, s.world, [Event.Rprintf_lambda i lam, Event.newH mid.h]⟩)) = P at hlog hlast
  have hlP : l = validity c mid.h P := by rw [hl, ← hP]; rfl
  obtain ⟨post, hvlog, hpost, hvw, hvx⟩ := validity_spec c mid.h P
  rw [← hlP] at hvlog hvw hvx
  rw [← hw] at hvw
  refine ⟨mid, P.x, [Event.Rprintf_lambda i lam, Event.newH mid.h] ++ evs,
    post ++ [Event.Rprintf_final i l.x, Event.Rprintf_time_optimize i, Event.newJ mid.j],
    hmid, ?_, ?_, ?_, ?_⟩
  · rw [hev, hvlog, hlog, ← hvw]; simp
  · rw [minimizeCalls_append, hpost]; simp [minimizeCalls]
  · rw [minimizeCalls_append]; simpa [minimizeCalls] using hlast
  · rw [haps, List.getElem?_set_self (by rw [hlen]; exact hi), hvx, ← hvw]

/-- The optimization block constructs no evaluator: it appends optimizer calls,
validity checks and diagnostics only. -/
theorem optimize_log (c : Collaborators W Mat Other Sol) (cfg : RegressionData Mat Other)
    (i : ℕ) (l : Local W (RegressionData Mat Other)) :
    ∃ evs, (optimize c cfg i l).log = l.log ++ evs ∧
      ∀ e ∈ evs, (∀ cfg1, e ≠ Event.newH cfg1) ∧ (∀ cfg1, e ≠ Event.newJ cfg1) := by
  simp only [optimize, validity, angleZero, anglePi, callMinimize]
  split_ifs <;>
    exact ⟨_, by simp only [List.append_assoc]; rfl, by simp⟩

/-- The evaluators constructed in one iteration: `h` once, `j` once, nothing else. -/
theorem optimizePart_evaluators (c : Collaborators W Mat Other Sol)
    (self : AnisotropicSmoothingBase) (i : ℕ) (s : State W Mat Other)
    (hi : i < self.lambda_.length)
    (hlen : s.anisoParamSmooth.length = self.lambda_.length) :
    ∃ mid lam, optimizePart c self i s = some mid ∧ self.lambda_[i]? = some lam ∧
      mid.h = s.regressionData_.setLambda [lam] ∧
      mid.j = (mid.h.setLambda self.lambdaCrossVal_).setComputeDOF true ∧
      mid.regressionData_ = mid.j.setComputeDOF self.dof_ ∧
      (∀ cfg, Event.newH cfg ∈ mid.events ↔ cfg = mid.h) ∧
      (∀ cfg, Event.newJ cfg ∈ mid.events ↔ cfg = mid.j) := by
  obtain ⟨lam, x0, mid, l, hlam, -, hmid, eh, ej, er, hl, -, -, hev, -⟩ :=
    optimizePart_spec c self i s hi hlen
  obtain ⟨evs, hlog, hno⟩ := optimize_log c mid.h i
    ⟨x0, s.world, [Event.Rprintf_lambda i lam, Event.newH mid.h]⟩
  rw [← hl] at hlog
  refine ⟨mid, lam, hmid, hlam, eh, ej, er, ?_, ?_⟩
  · intro cfg
    rw [hev, hlog]
    constructor
    · intro h
      rcases List.mem_append.mp h with h | h
      · rcases List.mem_append.mp h with h | h
        · simpa using h
        · exact absurd rfl ((hno _ h).1 cfg)
      · simp at h
    · rintro rfl; simp
  · intro cfg
    rw [hev, hlog]
    constructor
    · intro h
      rcases List.mem_append.mp h with h | h
      · rcases List.mem_append.mp h with h | h
        · simp at h
        · exact absurd rfl ((hno _ h).2 cfg)
      · simpa using h
    · rintro rfl; simp

/-- Inside the loop the cross-validation evaluator is constructed on the diffusion
matrix the shared configuration had when `smooth` was entered, whatever the collaborators
return: no statement of the loop writes the matrix. -/
theorem optimizePart_kappa {c : Collaborators W Mat Other Sol} {self : AnisotropicSmoothingBase}
    {rd : RegressionData Mat Other} {w : W} {i : ℕ} {s : State W Mat Other}
    {mid : Mid W Mat Other} (hi : i < self.lambda_.length)
    (hs : loop c self (init self rd w) i = some s)
    (hmid : optimizePart c self i s = some mid) : mid.j.K_ = rd.K_ := by
  obtain ⟨mid', _, hmid', -, eh, ej, -⟩ :=
    optimizePart_evaluators c self i s hi (loop_sized hs (by omega)).1
  rw [hmid] at hmid'
  obtain rfl : mid = mid' := by simpa using hmid'
  rw [ej, eh]
  exact (loop_config hs (by omega)).1

/-! ### Facts about the concrete runs -/

theorem exampleSelf_length : exampleSelf.lambda_.length = 2 := rfl

theorem exampleAfterFirst_reached :
    loop exampleCollaborators exampleSelf (init exampleSelf exampleData ()) 1 =
      some exampleAfterFirst := by
  obtain ⟨s, hs⟩ := loop_total exampleCollaborators exampleSelf exampleData ()
    (fun _ _ => by simp [exampleCollaborators]) 1 (by simp [exampleSelf_length])
  simp [exampleAfterFirst, hs]

theorem M_PI_2_ne_zero : M_PI_2 ≠ 0 := by norm_num [M_PI_2]

theorem M_PI_2_ne_M_PI : M_PI_2 ≠ M_PI := by norm_num [M_PI_2, M_PI]

/-! ### Homogeneity of the fine grid, `computeMeshLoc`, `createRegressionData` -/

/-- Multiplying the sample count by `c` multiplies every element of `seq` by `c`. -/
theorem seq_mul (c n_obs : ℕ) (area : ℚ) :
    seq (c * n_obs) area = (seq n_obs area).map (fun x => (c : ℚ) * x) := by
  simp only [seq, List.map_map]
  apply List.map_congr_left
  intro v _
  simp only [Function.comp, seqTransform]
  push_cast
  ring

/-- After `k` rounds the loop of `computeMeshLoc` holds the points of the first `k`
indices, in order. -/
theorem computeMeshLocLoop_eq {Point : Type} (getPoint : ℕ → Point)
    (observationsIndices : List ℕ) :
    ∀ k, k ≤ observationsIndices.length →
      computeMeshLocLoop getPoint observationsIndices k =
        some ((observationsIndices.take k).map getPoint) := by
  intro k
  induction k with
  | zero => intro _; simp [computeMeshLocLoop]
  | succ k ih =>
    intro hk
    have hlt : k < observationsIndices.length := by omega
    simp only [computeMeshLocLoop, ih (by omega), List.getElem?_eq_getElem hlt]
    rw [List.take_succ, List.getElem?_eq_getElem hlt, List.map_append]
    rfl

/-- The first overload of `createRegressionData` copies every member of the current
configuration except the regularization sequence, which becomes `[lambda]`, and the
diffusion matrix, which becomes the content of the local `kappa`. -/
theorem createRegressionData_lambda_eq {Mat Point VectorXr MatrixXr : Type}
    (rd : RegressionDataElliptic Mat Point VectorXr MatrixXr) (kappa : Mat) (lambda : ℚ) :
    AnisotropicSmoothing.createRegressionData_lambda rd kappa lambda =
      { rd with lambda_ := [lambda], K_ := kappa } := rfl

/-! ### The diagnostics of the periodicity blocks -/

theorem anglePiReports_append {Cfg : Type} (xs ys : List (Event Cfg)) :
    anglePiReports (xs ++ ys) = anglePiReports xs ++ anglePiReports ys := by
  induction xs with
  | nil => rfl
  | cons e es ih => cases e <;> simp [anglePiReports, ih]

theorem angleZeroReports_append {Cfg : Type} (xs ys : List (Event Cfg)) :
    angleZeroReports (xs ++ ys) = angleZeroReports xs ++ angleZeroReports ys := by
  induction xs with
  | nil => rfl
  | cons e es ih => cases e <;> simp [angleZeroReports, ih]

/-- The messages "Angle equal to pi" of lines 32-49: one exactly when the first
optimizer call returns the angle `M_PI`. -/
theorem optimize_anglePiReports (c : Collaborators W Mat Other Sol)
    (cfg : RegressionData Mat Other) (i : ℕ) (l : Local W (RegressionData Mat Other)) :
    anglePiReports (optimize c cfg i l).log = anglePiReports l.log ++
      (if (c.minimize l.world cfg l.x).1.angle = M_PI then [i] else []) := by
  simp only [optimize, validity, angleZero, anglePi, callMinimize]
  split_ifs <;> simp [anglePiReports_append, anglePiReports]

/-- The messages "Angle equal to 0" of lines 32-49: one exactly when the angle held
after the first periodicity block is `0`. -/
theorem optimize_angleZeroReports (c : Collaborators W Mat Other Sol)
    (cfg : RegressionData Mat Other) (i : ℕ) (l : Local W (RegressionData Mat Other)) :
    angleZeroReports (optimize c cfg i l).log = angleZeroReports l.log ++
      (if (c.minimize l.world cfg l.x).1.angle = M_PI then
        (if (c.minimize (c.minimize l.world cfg l.x).2 cfg
              ⟨0, (c.minimize l.world cfg l.x).1.intensity⟩).1.angle = 0 then [i] else [])
      else if (c.minimize l.world cfg l.x).1.angle = 0 then [i] else []) := by
  simp only [optimize, validity, angleZero, anglePi, callMinimize]
  split_ifs <;> simp [angleZeroReports_append, angleZeroReports]

/-- The optimizer calls and the periodicity messages of one iteration, read off the
events of `optimizePart`. -/
theorem optimizePart_periodicity (c : Collaborators W Mat Other Sol)
    (self : AnisotropicSmoothingBase) (i : ℕ) (s : State W Mat Other)
    (hi : i < self.lambda_.length)
    (hlen : s.anisoParamSmooth.length = self.lambda_.length) :
    ∃ mid x0 l0, optimizePart c self i s = some mid ∧
      (if i = 0 then s.anisoParamSmooth[0]? else s.anisoParamSmooth[i - 1]?) = some x0 ∧
      l0.x = x0 ∧ l0.world = s.world ∧
      minimizeCalls mid.events = minimizeCalls (optimize c mid.h i l0).log ∧
      minimizeCalls l0.log = [] ∧
      anglePiReports mid.events =
        (if (c.minimize l0.world mid.h l0.x).1.angle = M_PI then [i] else []) ∧
      angleZeroReports mid.events =
        (if (c.minimize l0.world mid.h l0.x).1.angle = M_PI then
          (if (c.minimize (c.minimize l0.world mid.h l0.x).2 mid.h
                ⟨0, (c.minimize l0.world mid.h l0.x).1.intensity⟩).1.angle = 0 then [i]
            else [])
        else if (c.minimize l0.world mid.h l0.x).1.angle = 0 then [i] else []) := by
  obtain ⟨lam, x0, mid, l, -, hx0, hmid, -, -, -, hl, -, -, hev, hcalls⟩ :=
    optimizePart_spec c self i s hi hlen
  refine ⟨mid, x0, ⟨x0, s.world, [Event.Rprintf_lambda i lam, Event.newH mid.h]⟩, hmid, hx0,
    rfl, rfl, by rw [hcalls, hl], by simp [minimizeCalls], ?_, ?_⟩
  · rw [hev, anglePiReports_append, hl, optimize_anglePiReports]
    simp [anglePiReports]
  · rw [hev, angleZeroReports_append, hl, optimize_angleZeroReports]
    simp [angleZeroReports]

/-! ### Lemmas for the end-to-end scenario -/

/-- When the optimizer returns its starting point, whose angle is neither `M_PI` nor
`0` and which the validity predicate accepts, the optimization block leaves the slot
as it was. -/
theorem optimize_fixed (c : Collaborators W Mat Other Sol) (cfg : RegressionData Mat Other)
    (i : ℕ) (l : Local W (RegressionData Mat Other))
    (hmin : (c.minimize l.world cfg l.x).1 = l.x) (hpi : l.x.angle ≠ M_PI)
    (h0 : l.x.angle ≠ 0) (hval : ∀ w, c.isValid w cfg l.x = true) :
    (optimize c cfg i l).x = l.x := by
  simp [optimize, validity, angleZero, anglePi, callMinimize, hmin, hpi, h0, hval]

/-- In a list whose head is strictly below all other elements, the first minimum is
the head. -/
theorem firstMin_head {x m : ℚ} {t : List ℚ} {k : ℕ} (hlt : ∀ y ∈ t, x < y)
    (h : FirstMin (x :: t) k m) : k = 0 ∧ m = x := by
  have hk : k = 0 := by
    by_contra hk
    obtain ⟨k1, rfl⟩ := Nat.exists_eq_succ_of_ne_zero hk
    have hm : m ∈ t := List.getElem?_mem (by simpa using h.1)
    have h1 : m ≤ x := h.2.1 x (by simp)
    exact absurd (hlt m hm) (not_lt.mpr h1)
  subst hk
  exact ⟨rfl, by simpa using h.1.symm⟩

/-- The fine grid has a head, which is positive and strictly below all other values. -/
theorem seq_head {n_obs : ℕ} {area : ℚ} (hn : 0 < n_obs) (ha : 0 < area) :
    ∃ x t, seq n_obs area = x :: t ∧ 0 < x ∧ ∀ y ∈ t, x < y := by
  have hc := seq_chain hn ha
  have hl : (seq n_obs area).length = 70 := by simp [seq, seqBase_length]
  cases hF : seq n_obs area with
  | nil => rw [hF] at hl; simp at hl
  | cons x t =>
    rw [hF] at hc
    refine ⟨x, t, rfl, ?_, fun y hy => List.Chain.rel hc hy⟩
    have hx : x ∈ seq n_obs area := by rw [hF]; simp
    simp only [seq, List.mem_map] at hx
    obtain ⟨v, hv, rfl⟩ := hx
    exact seqTransform_pos hn ha (seqBase_bounds v hv).1 (seqBase_bounds v hv).2

/-- One round of the loop in the end-to-end scenario: started from `(M_PI_2, 5)` with
an optimizer that returns its starting point and a validity predicate that accepts
`(M_PI_2, 5)`, the round stores `(M_PI_2, 5)` in slot `i`; and when the scores have a
head strictly below all other scores, it records the index `0` and that head. -/
theorem scenario_round (c : Collaborators W Mat Other Sol) (self : AnisotropicSmoothingBase)
    (i : ℕ) (s : State W Mat Other)
    (hmin : ∀ w cfg x, (c.minimize w cfg x).1 = x)
    (hval : ∀ w cfg, c.isValid w cfg ⟨M_PI_2, 5⟩ = true)
    (hi : i < self.lambda_.length)
    (hlen : s.anisoParamSmooth.length = self.lambda_.length)
    (hx0 : (if i = 0 then s.anisoParamSmooth[0]? else s.anisoParamSmooth[i - 1]?) =
      some ⟨M_PI_2, 5⟩) :
    ∃ mid, optimizePart c self i s = some mid ∧
      ∀ x t, (c.getGCV mid.world mid.j).1 = x :: t → (∀ y ∈ t, x < y) →
        ∃ s1, iteration c self i s = some s1 ∧
          s1.anisoParamSmooth = s.anisoParamSmooth.set i ⟨M_PI_2, 5⟩ ∧
          s1.crossValSmoothInd = s.crossValSmoothInd.set i 0 ∧
          s1.gcvSmooth = s.gcvSmooth.set i x := by
  obtain ⟨lam, x0, mid, l, -, hx, hmid, -, -, -, hl, -, haps, -, -⟩ :=
    optimizePart_spec c self i s hi hlen
  rw [hx0] at hx
  obtain rfl : (⟨M_PI_2, 5⟩ : TVector) = x0 := by simpa using hx
  have hlx : l.x = ⟨M_PI_2, 5⟩ := by
    rw [hl]
    exact optimize_fixed c mid.h i _ (hmin _ _ _) M_PI_2_ne_M_PI M_PI_2_ne_zero
      (fun w => hval w mid.h)
  refine ⟨mid, hmid, ?_⟩
  intro x t hg hlt
  obtain ⟨m, k, s1, h1, hfm, -, -, e1, e2, e3, -⟩ :=
    gcvPart_spec c i s mid (by rw [hg]; simp)
  rw [hg] at hfm
  obtain ⟨rfl, rfl⟩ := firstMin_head hlt hfm
  refine ⟨s1, by simp only [iteration, hmid, Option.some_bind, h1], ?_, e2, e3⟩
  rw [e1, haps, hlx]

/-- When the optimizer leaves the collaborators' state alone, so does the
optimization block. -/
theorem optimize_world (c : Collaborators W Mat Other Sol) (cfg : RegressionData Mat Other)
    (i : ℕ) (l : Local W (RegressionData Mat Other))
    (hkeep : ∀ w cfg x, (c.minimize w cfg x).2 = w) :
    (optimize c cfg i l).world = l.world := by
  simp only [optimize, validity, angleZero, anglePi, callMinimize]
  split_ifs <;> simp [hkeep]

theorem optimizePart_world {c : Collaborators W Mat Other Sol} {self : AnisotropicSmoothingBase}
    {i : ℕ} {s : State W Mat Other} {mid : Mid W Mat Other}
    (hkeep : ∀ w cfg x, (c.minimize w cfg x).2 = w) (hi : i < self.lambda_.length)
    (hlen : s.anisoParamSmooth.length = self.lambda_.length)
    (hmid : optimizePart c self i s = some mid) : mid.world = s.world := by
  obtain ⟨_, _, mid1, l, -, -, hmid1, -, -, -, hl, hw, -⟩ := optimizePart_spec c self i s hi hlen
  rw [hmid] at hmid1
  obtain rfl : mid = mid1 := by simpa using hmid1
  rw [hw, hl, optimize_world c _ _ _ hkeep]

/-- In the end-to-end scenario the state of the stubs at the head of round `k` is `k`,
the number of score vectors handed out so far. -/
theorem scenario_world (n_obs : ℕ) (area : ℚ) (self : AnisotropicSmoothingBase)
    (rd : RegressionData TVector Unit) :
    ∀ (k : ℕ) (s : State ℕ TVector Unit),
      loop (scenarioCollaborators n_obs area) self (init self rd 0) k = some s →
      k ≤ self.lambda_.length → s.world = k := by
  intro k
  induction k with
  | zero =>
    intro s hs _
    simp only [loop, Option.some.injEq] at hs
    subst hs
    rfl
  | succ k ih =>
    intro s1 hs1 hk
    obtain ⟨s, mid, hs, hmid, hg⟩ := loop_succ_eq_some.mp hs1
    have hw := optimizePart_world (c := scenarioCollaborators n_obs area) (fun _ _ _ => rfl)
      (by omega) (loop_sized hs (by omega)).1 hmid
    obtain ⟨_, _, s2, h2, -, -, e, -⟩ := gcvPart_spec (scenarioCollaborators n_obs area) k s mid
      (gcvPart_ne_nil hg)
    rw [hg] at h2
    obtain rfl : s1 = s2 := by simpa using h2
    rw [e, hw, ih s hs (by omega)]
    rfl

/-- The scores of the end-to-end scenario in outer iteration `i`. -/
theorem scenario_scores (n_obs : ℕ) (area : ℚ) (self : AnisotropicSmoothingBase)
    (rd : RegressionData TVector Unit) (i : ℕ) (s : State ℕ TVector Unit)
    (mid : Mid ℕ TVector Unit) (hi : i < self.lambda_.length)
    (hs : loop (scenarioCollaborators n_obs area) self (init self rd 0) i = some s)
    (hmid : optimizePart (scenarioCollaborators n_obs area) self i s = some mid) :
    ((scenarioCollaborators n_obs area).getGCV mid.world mid.j).1 =
      if i = 0 then seq n_obs area else (seq n_obs area).map (fun v => 2 * v) := by
  have hw := optimizePart_world (c := scenarioCollaborators n_obs area) (fun _ _ _ => rfl)
    hi (loop_sized hs (by omega)).1 hmid
  rw [hw, scenario_world n_obs area self rd i s hs (by omega)]
  rfl

end AnisotropicSmoothingBase

/-! ## The claims -/

namespace AnisotropicSmoothingBase

variable {W Mat Other Sol : Type}

/-! ### C1: the fine grid -/

/-- C1. For every sample count `n_obs > 0` and every `area > 0`, `seq n_obs area` has
exactly 70 elements; its `j`-th element is `v / (1 - v) * n_obs / area` for the `j`-th
hard-coded base value `v`; every element is positive; and the sequence is strictly
increasing: element `j` is below element `j + 1` for every `j < 69`. -/
theorem seq_spec (n_obs : ℕ) (area : ℚ) (hn : 0 < n_obs) (ha : 0 < area) :
    (seq n_obs area).length = 70 ∧
    (∀ (j : ℕ) (v : ℚ), seqBase[j]? = some v →
      (seq n_obs area)[j]? = some (v / (1 - v) * n_obs / area)) ∧
    (∀ x ∈ seq n_obs area, 0 < x) ∧
    (∀ j : ℕ, j < 69 → ∃ x y : ℚ, (seq n_obs area)[j]? = some x ∧
      (seq n_obs area)[j + 1]? = some y ∧ x < y) := by
  have hlen : (seq n_obs area).length = 70 := by simp [seq, seqBase_length]
  refine ⟨hlen, ?_, ?_, ?_⟩
  · intro j v hv
    simp [seq, List.getElem?_map, hv, seqTransform, mul_div_assoc]
  · intro x hx
    simp only [seq, List.mem_map] at hx
    obtain ⟨v, hv, rfl⟩ := hx
    exact seqTransform_pos hn ha (seqBase_bounds v hv).1 (seqBase_bounds v hv).2
  · intro j hj
    have h := List.chain'_iff_get.mp (seq_chain hn ha) j (by omega)
    refine ⟨_, _, List.getElem?_eq_getElem (by omega), List.getElem?_eq_getElem (by omega), ?_⟩
    simpa using h

/-- Witness of C1: the hypotheses hold for 3 observations and area 2. -/
theorem seq_spec_witness :
    0 < 3 ∧ (0:ℚ) < 2 ∧ ((seq 3 2).length = 70 ∧
    (∀ (j : ℕ) (v : ℚ), seqBase[j]? = some v →
      (seq 3 2)[j]? = some (v / (1 - v) * ((3 : ℕ) : ℚ) / 2)) ∧
    (∀ x ∈ seq 3 2, 0 < x) ∧
    (∀ j : ℕ, j < 69 → ∃ x y : ℚ, (seq 3 2)[j]? = some x ∧
      (seq 3 2)[j + 1]? = some y ∧ x < y)) :=
  ⟨by decide, by norm_num, seq_spec 3 2 (by decide) (by norm_num)⟩

/-! ### C2: the global selection -/

/-- C2. With a non-empty coarse grid (and score vectors that are never empty and never
longer than the fine grid, so that no lookup is out of range) `smooth` returns, and:
`gcvSmooth` has one entry per outer iteration, slot `i` of the three vectors holding
what iteration `i` recorded; `optIndex` is the smallest index at which `gcvSmooth` is
minimal; the returned anisotropy is `anisoParamSmooth[optIndex]`; and the final fit is
constructed on a configuration whose regularization sequence is the single value
`lambdaCrossVal_[crossValSmoothInd[optIndex]]`. -/
theorem smooth_selects_first_global_minimum (c : Collaborators W Mat Other Sol)
    (self : AnisotropicSmoothingBase) (rd : RegressionData Mat Other) (w : W)
    (hne : self.lambda_ ≠ [])
    (hG : ∀ w cfg, (c.getGCV w cfg).1 ≠ [] ∧
      (c.getGCV w cfg).1.length ≤ self.lambdaCrossVal_.length) :
    ∃ o m fine lam aniso cfgF, smoothRun c self rd w = some o ∧
      o.afterLoop.gcvSmooth.length = self.lambda_.length ∧
      (∀ i, i < self.lambda_.length →
        ∃ si, loop c self (init self rd w) (i + 1) = some si ∧
          o.afterLoop.gcvSmooth[i]? = si.gcvSmooth[i]? ∧
          o.afterLoop.crossValSmoothInd[i]? = si.crossValSmoothInd[i]? ∧
          o.afterLoop.anisoParamSmooth[i]? = si.anisoParamSmooth[i]?) ∧
      o.optIndex = min_element o.afterLoop.gcvSmooth ∧
      o.afterLoop.gcvSmooth[o.optIndex]? = some m ∧
      (∀ y ∈ o.afterLoop.gcvSmooth, m ≤ y) ∧
      (∀ (j : ℕ) (y : ℚ), j < o.optIndex → o.afterLoop.gcvSmooth[j]? = some y → m < y) ∧
      o.afterLoop.anisoParamSmooth[o.optIndex]? = some aniso ∧
      o.ret.2 = aniso ∧ smooth c self rd w = some o.ret ∧
      o.afterLoop.crossValSmoothInd[o.optIndex]? = some fine ∧
      self.lambdaCrossVal_[fine]? = some lam ∧
      o.log = o.afterLoop.log ++
        [Event.regressionFinal cfgF, Event.Rprintf_time_final, Event.Rprintf_time_total] ∧
      cfgF.lambda_ = [lam] := by
  obtain ⟨o, s, m, fine, lam, aniso, hs, ho, hal, hopt, -, hfm, hfine, hlam, haps, hrd, hret,
    hlog⟩ := smoothRun_spec c self rd w hne hG
  subst hal
  refine ⟨o, m, fine, lam, aniso, o.regressionData_, ho, (loop_sized hs le_rfl).2.2, ?_, hopt,
    hfm.1, hfm.2.1, hfm.2.2, haps, by rw [hret], by simp [smooth, ho], hfine, hlam, hlog,
    by rw [hrd]; rfl⟩
  intro i hi
  obtain ⟨si, hsi⟩ := loop_total c self rd w (fun w cfg => (hG w cfg).1) (i + 1) (by omega)
  have hd : i + 1 + (self.lambda_.length - (i + 1)) = self.lambda_.length := by omega
  obtain ⟨a1, a2, a3⟩ := loop_slots_stable hsi (self.lambda_.length - (i + 1)) o.afterLoop
    (by omega) (by rw [hd]; exact hs)
  exact ⟨si, hsi, a3, a2, a1⟩

/-- Witness of C2: the hypotheses hold on a concrete run. -/
theorem smooth_selects_first_global_minimum_witness :
    (exampleSelf.lambda_ ≠ [] ∧
      ∀ w cfg, (exampleCollaborators.getGCV w cfg).1 ≠ [] ∧
        (exampleCollaborators.getGCV w cfg).1.length ≤ exampleSelf.lambdaCrossVal_.length) ∧
    ∃ o m fine lam aniso cfgF, smoothRun exampleCollaborators exampleSelf exampleData () =
        some o ∧
      o.afterLoop.gcvSmooth.length = exampleSelf.lambda_.length ∧
      (∀ i, i < exampleSelf.lambda_.length →
        ∃ si, loop exampleCollaborators exampleSelf (init exampleSelf exampleData ()) (i + 1) =
            some si ∧
          o.afterLoop.gcvSmooth[i]? = si.gcvSmooth[i]? ∧
          o.afterLoop.crossValSmoothInd[i]? = si.crossValSmoothInd[i]? ∧
          o.afterLoop.anisoParamSmooth[i]? = si.anisoParamSmooth[i]?) ∧
      o.optIndex = min_element o.afterLoop.gcvSmooth ∧
      o.afterLoop.gcvSmooth[o.optIndex]? = some m ∧
      (∀ y ∈ o.afterLoop.gcvSmooth, m ≤ y) ∧
      (∀ (j : ℕ) (y : ℚ), j < o.optIndex → o.afterLoop.gcvSmooth[j]? = some y → m < y) ∧
      o.afterLoop.anisoParamSmooth[o.optIndex]? = some aniso ∧
      o.ret.2 = aniso ∧ smooth exampleCollaborators exampleSelf exampleData () = some o.ret ∧
      o.afterLoop.crossValSmoothInd[o.optIndex]? = some fine ∧
      exampleSelf.lambdaCrossVal_[fine]? = some lam ∧
      o.log = o.afterLoop.log ++
        [Event.regressionFinal cfgF, Event.Rprintf_time_final, Event.Rprintf_time_total] ∧
      cfgF.lambda_ = [lam] :=
  ⟨⟨by simp [exampleSelf, construct, exampleData],
      fun _ _ => by simp [exampleCollaborators, exampleSelf, construct, seq, seqBase]⟩,
    smooth_selects_first_global_minimum exampleCollaborators exampleSelf exampleData ()
      (by simp [exampleSelf, construct, exampleData])
      (fun _ _ => by simp [exampleCollaborators, exampleSelf, construct, seq, seqBase])⟩

/-! ### C3: the minimum of one iteration -/

/-- C3. Whenever the loop of `smooth` reaches the index `i`, the cross-validation
evaluator `j` is constructed, and if the score vector it returns is not empty the
iteration completes and records in slot `i` of `gcvSmooth` the minimum of the scores
and in slot `i` of `crossValSmoothInd` the smallest index at which the scores attain
that minimum. -/
theorem smooth_records_first_minimum (c : Collaborators W Mat Other Sol)
    (self : AnisotropicSmoothingBase) (rd : RegressionData Mat Other) (w : W) (i : ℕ)
    (s : State W Mat Other) (hi : i < self.lambda_.length)
    (hs : loop c self (init self rd w) i = some s) :
    ∃ mid, optimizePart c self i s = some mid ∧
      ((c.getGCV mid.world mid.j).1 ≠ [] →
        ∃ s1 m k, loop c self (init self rd w) (i + 1) = some s1 ∧
          s1.log = s.log ++ mid.events ++
            [Event.getGCV (c.getGCV mid.world mid.j).1, Event.Rprintf_time_gcv i] ∧
          s1.gcvSmooth[i]? = some m ∧ s1.crossValSmoothInd[i]? = some k ∧
          (c.getGCV mid.world mid.j).1[k]? = some m ∧
          (∀ y ∈ (c.getGCV mid.world mid.j).1, m ≤ y) ∧
          ∀ (j : ℕ) (y : ℚ), j < k → (c.getGCV mid.world mid.j).1[j]? = some y → m < y) := by
  have hsz := loop_sized hs (by omega)
  obtain ⟨_, _, mid, _, -, -, hmid, -⟩ := optimizePart_spec c self i s hi hsz.1
  refine ⟨mid, hmid, ?_⟩
  intro hne
  obtain ⟨m, k, s1, h1, hfm, -, -, -, e2, e3, elog⟩ := gcvPart_spec c i s mid hne
  refine ⟨s1, m, k, loop_succ_eq_some.mpr ⟨s, mid, hs, hmid, h1⟩, elog, ?_, ?_, hfm.1, hfm.2.1,
    hfm.2.2⟩
  · rw [e3, List.getElem?_set_self (by rw [hsz.2.2]; exact hi)]
  · rw [e2, List.getElem?_set_self (by rw [hsz.2.1]; exact hi)]

/-- Witness of C3: the hypotheses hold on a concrete run. -/
theorem smooth_records_first_minimum_witness :
    (1 < exampleSelf.lambda_.length ∧
      loop exampleCollaborators exampleSelf (init exampleSelf exampleData ()) 1 =
        some exampleAfterFirst) ∧
    ∃ mid, optimizePart exampleCollaborators exampleSelf 1 exampleAfterFirst = some mid ∧
      ((exampleCollaborators.getGCV mid.world mid.j).1 ≠ [] →
        ∃ s1 m k, loop exampleCollaborators exampleSelf (init exampleSelf exampleData ())
            (1 + 1) = some s1 ∧
          s1.log = exampleAfterFirst.log ++ mid.events ++
            [Event.getGCV (exampleCollaborators.getGCV mid.world mid.j).1,
              Event.Rprintf_time_gcv 1] ∧
          s1.gcvSmooth[1]? = some m ∧ s1.crossValSmoothInd[1]? = some k ∧
          (exampleCollaborators.getGCV mid.world mid.j).1[k]? = some m ∧
          (∀ y ∈ (exampleCollaborators.getGCV mid.world mid.j).1, m ≤ y) ∧
          ∀ (j : ℕ) (y : ℚ), j < k →
            (exampleCollaborators.getGCV mid.world mid.j).1[j]? = some y → m < y) :=
  ⟨⟨by simp [exampleSelf_length], exampleAfterFirst_reached⟩,
    smooth_records_first_minimum exampleCollaborators exampleSelf exampleData () 1
      exampleAfterFirst (by simp [exampleSelf_length]) exampleAfterFirst_reached⟩

/-! ### C4: periodicity corrections -/

/-- C4, counterexample. With an optimizer that goes to angle `M_PI` from `(M_PI_2, 5)`
and stays at angle `0` when started there, the first call of iteration 0 returns an
angle equal to `M_PI` and the iteration makes three optimizer calls, not two: the
corrective call from angle `0` returns angle `0`, which triggers a second corrective
call from angle `M_PI`. -/
theorem smooth_periodicity_three_calls :
    ∃ mid, optimizePart boundaryCollaborators exampleSelf 0
        (init exampleSelf exampleData ()) = some mid ∧
      minimizeCalls mid.events =
        [(⟨M_PI_2, 5⟩, ⟨M_PI, 5⟩), (⟨0, 5⟩, ⟨0, 5⟩), (⟨M_PI, 5⟩, ⟨M_PI, 5⟩)] ∧
      (minimizeCalls mid.events).length ≠ 2 := by
  obtain ⟨lam, x0, mid, l, -, hx0, hmid, -, -, -, hl, -, -, -, hcalls⟩ :=
    optimizePart_spec boundaryCollaborators exampleSelf 0 (init exampleSelf exampleData ())
      (by simp [exampleSelf_length]) (by simp [init])
  have hx : x0 = ⟨M_PI_2, 5⟩ := by
    simpa [init, exampleSelf_length] using hx0.symm
  have hc : minimizeCalls mid.events =
      [(⟨M_PI_2, 5⟩, ⟨M_PI, 5⟩), (⟨0, 5⟩, ⟨0, 5⟩), (⟨M_PI, 5⟩, ⟨M_PI, 5⟩)] := by
    rw [hcalls, hl, optimize_calls, hx]
    simp [boundaryCollaborators, minimizeCalls, M_PI_2_ne_zero, M_PI_ne_zero]
  exact ⟨mid, hmid, hc, by rw [hc]; decide⟩

/-- C4, as amended. Whenever the loop of `smooth` reaches the index `i`: if the first
optimizer call returns an angle equal to `0`, exactly one more call is made, started
from angle `M_PI`; if it returns an angle equal to `M_PI`, a second call is made from
angle `0`, and it is the last one when its result has an angle different from `0`,
while a third call, started from angle `M_PI`, follows when its result has angle `0`. -/
theorem smooth_periodicity_calls (c : Collaborators W Mat Other Sol)
    (self : AnisotropicSmoothingBase) (rd : RegressionData Mat Other) (w : W) (i : ℕ)
    (s : State W Mat Other) (hi : i < self.lambda_.length)
    (hs : loop c self (init self rd w) i = some s) :
    ∃ mid start r1 rest, optimizePart c self i s = some mid ∧
      minimizeCalls mid.events = (start, r1) :: rest ∧
      (r1.angle = 0 → ∃ r2, rest = [(⟨M_PI, r1.intensity⟩, r2)]) ∧
      (r1.angle = M_PI → ∃ r2,
        (r2.angle ≠ 0 ∧ rest = [(⟨0, r1.intensity⟩, r2)]) ∨
        (r2.angle = 0 ∧ ∃ r3, rest = [(⟨0, r1.intensity⟩, r2), (⟨M_PI, r2.intensity⟩, r3)])) := by
  obtain ⟨lam, x0, mid, l, -, -, hmid, -, -, -, hl, -, -, -, hcalls⟩ :=
    optimizePart_spec c self i s hi (loop_sized hs (by omega)).1
  have hc := optimize_calls c mid.h i ⟨x0, s.world, [Event.Rprintf_lambda i lam, Event.newH mid.h]⟩
  rw [← hl, ← hcalls] at hc
  simp only [minimizeCalls, List.nil_append] at hc
  by_cases h1 : (c.minimize s.world mid.h x0).1.angle = M_PI
  · rw [if_pos h1] at hc
    by_cases h2 : (c.minimize (c.minimize s.world mid.h x0).2 mid.h
        ⟨0, (c.minimize s.world mid.h x0).1.intensity⟩).1.angle = 0
    · rw [if_pos h2] at hc
      exact ⟨mid, _, _, _, hmid, hc, fun h0 => absurd (h1.symm.trans h0) M_PI_ne_zero,
        fun _ => ⟨_, Or.inr ⟨h2, _, rfl⟩⟩⟩
    · rw [if_neg h2] at hc
      exact ⟨mid, _, _, _, hmid, hc, fun h0 => absurd (h1.symm.trans h0) M_PI_ne_zero,
        fun _ => ⟨_, Or.inl ⟨h2, rfl⟩⟩⟩
  · rw [if_neg h1] at hc
    by_cases h0 : (c.minimize s.world mid.h x0).1.angle = 0
    · rw [if_pos h0] at hc
      exact ⟨mid, _, _, _, hmid, hc, fun _ => ⟨_, rfl⟩, fun h => absurd h h1⟩
    · rw [if_neg h0] at hc
      exact ⟨mid, _, _, _, hmid, hc, fun h => absurd h h0, fun h => absurd h h1⟩

/-- Witness of C4 as amended: the hypotheses hold on a concrete run. -/
theorem smooth_periodicity_calls_witness :
    (0 < exampleSelf.lambda_.length ∧
      loop boundaryCollaborators exampleSelf (init exampleSelf exampleData ()) 0 =
        some (init exampleSelf exampleData ())) ∧
    ∃ mid start r1 rest, optimizePart boundaryCollaborators exampleSelf 0
        (init exampleSelf exampleData ()) = some mid ∧
      minimizeCalls mid.events = (start, r1) :: rest ∧
      (r1.angle = 0 → ∃ r2, rest = [(⟨M_PI, r1.intensity⟩, r2)]) ∧
      (r1.angle = M_PI → ∃ r2,
        (r2.angle ≠ 0 ∧ rest = [(⟨0, r1.intensity⟩, r2)]) ∨
        (r2.angle = 0 ∧ ∃ r3, rest = [(⟨0, r1.intensity⟩, r2), (⟨M_PI, r2.intensity⟩, r3)])) :=
  ⟨⟨by simp [exampleSelf_length], rfl⟩,
    smooth_periodicity_calls boundaryCollaborators exampleSelf exampleData () 0
      (init exampleSelf exampleData ()) (by simp [exampleSelf_length]) rfl⟩

/-! ### C5: the diffusion matrix of the cross-validation evaluator -/

/-- C5, the code at a failing input. On `exampleData`, whose diffusion matrix is
`(0, 1)`, with an optimizer that returns its starting point, iteration 0 stores the
parameter `(M_PI_2, 5)` and constructs the cross-validation evaluator on a
configuration whose diffusion matrix is still `(0, 1)`, not `buildKappa (M_PI_2, 5)`. -/
theorem smooth_gcv_evaluator_keeps_entry_kappa :
    ∃ mid, optimizePart exampleCollaborators exampleSelf 0
        (init exampleSelf exampleData ()) = some mid ∧
      mid.anisoParamSmooth[0]? = some ⟨M_PI_2, 5⟩ ∧
      mid.j.K_ = exampleData.K_ ∧
      mid.j.K_ ≠ exampleCollaborators.buildKappa ⟨M_PI_2, 5⟩ := by
  obtain ⟨mid, xv, pre, post, hmid, -, -, -, -⟩ :=
    optimizePart_validity exampleCollaborators exampleSelf 0 (init exampleSelf exampleData ())
      (by simp [exampleSelf_length]) (by simp [init])
  have h0 : loop exampleCollaborators exampleSelf (init exampleSelf exampleData ()) 0 =
      some (init exampleSelf exampleData ()) := rfl
  have hk : mid.j.K_ = exampleData.K_ :=
    optimizePart_kappa (by simp [exampleSelf_length]) h0 hmid
  refine ⟨mid, hmid, ?_, hk, ?_⟩
  · simp [optimizePart, exampleSelf, construct, exampleData, init, warmStart, optimize, validity,
      angleZero, anglePi, callMinimize, exampleCollaborators, M_PI_2_ne_M_PI, M_PI_2_ne_zero]
      at hmid
    rw [← hmid]
    simp
  · rw [hk]
    simp [exampleData, exampleCollaborators, M_PI_2_ne_zero.symm]

/-! ### C6: the validity fallback -/

/-- C6. Whenever the loop of `smooth` reaches the index `i`, the events of the
iteration contain the validity check of the parameter `xv` returned by the last
optimizer call; no optimizer call follows the check before line 61; and when the
predicate rejects `xv`, slot `i` of `anisoParamSmooth` holds the component-wise clamp
of `xv`, whose angle lies in `[0, M_PI]` and whose intensity lies in `[1, 1000]`,
until the end of the iteration, none of whose events after the check is an optimizer
call. -/
theorem smooth_validity_clamp (c : Collaborators W Mat Other Sol)
    (self : AnisotropicSmoothingBase) (rd : RegressionData Mat Other) (w : W) (i : ℕ)
    (s : State W Mat Other) (hi : i < self.lambda_.length)
    (hs : loop c self (init self rd w) i = some s) :
    ∃ mid xv pre post, optimizePart c self i s = some mid ∧
      mid.events = pre ++ Event.isValid xv (c.isValid mid.world mid.h xv) :: post ∧
      ((minimizeCalls pre).getLast?).map Prod.snd = some xv ∧
      minimizeCalls post = [] ∧
      (c.isValid mid.world mid.h xv = false →
        mid.anisoParamSmooth[i]? =
          some ⟨min (max xv.angle 0) M_PI, min (max xv.intensity 1) 1000⟩ ∧
        0 ≤ min (max xv.angle 0) M_PI ∧ min (max xv.angle 0) M_PI ≤ M_PI ∧
        1 ≤ min (max xv.intensity 1) 1000 ∧ min (max xv.intensity 1) 1000 ≤ 1000 ∧
        ∀ s1, loop c self (init self rd w) (i + 1) = some s1 →
          s1.anisoParamSmooth[i]? =
            some ⟨min (max xv.angle 0) M_PI, min (max xv.intensity 1) 1000⟩ ∧
          ∃ rest, s1.log = s.log ++ pre ++
              Event.isValid xv (c.isValid mid.world mid.h xv) :: rest ∧
            minimizeCalls rest = []) := by
  obtain ⟨mid, xv, pre, post, hmid, hev, hpost, hlast, haps⟩ :=
    optimizePart_validity c self i s hi (loop_sized hs (by omega)).1
  refine ⟨mid, xv, pre, post, hmid, hev, hlast, hpost, ?_⟩
  intro hrej
  rw [hrej] at haps
  have hbox := clamp_inBox xv
  simp only [Bool.false_eq_true, if_false] at haps
  refine ⟨haps, hbox.1, hbox.2.1, hbox.2.2.1, hbox.2.2.2, ?_⟩
  intro s1 hs1
  obtain ⟨e1, elog⟩ := loop_succ_log hs hmid hs1
  refine ⟨by rw [e1]; exact haps,
    post ++ [Event.getGCV (c.getGCV mid.world mid.j).1, Event.Rprintf_time_gcv i], ?_, ?_⟩
  · rw [elog, hev]; simp
  · rw [minimizeCalls_append, hpost]; simp [minimizeCalls]

/-- Witness of C6: the hypotheses hold on a concrete run. -/
theorem smooth_validity_clamp_witness :
    (0 < exampleSelf.lambda_.length ∧
      loop rejectingCollaborators exampleSelf (init exampleSelf exampleData ()) 0 =
        some (init exampleSelf exampleData ())) ∧
    ∃ mid xv pre post, optimizePart rejectingCollaborators exampleSelf 0
        (init exampleSelf exampleData ()) = some mid ∧
      mid.events = pre ++
        Event.isValid xv (rejectingCollaborators.isValid mid.world mid.h xv) :: post ∧
      ((minimizeCalls pre).getLast?).map Prod.snd = some xv ∧
      minimizeCalls post = [] ∧
      (rejectingCollaborators.isValid mid.world mid.h xv = false →
        mid.anisoParamSmooth[0]? =
          some ⟨min (max xv.angle 0) M_PI, min (max xv.intensity 1) 1000⟩ ∧
        0 ≤ min (max xv.angle 0) M_PI ∧ min (max xv.angle 0) M_PI ≤ M_PI ∧
        1 ≤ min (max xv.intensity 1) 1000 ∧ min (max xv.intensity 1) 1000 ≤ 1000 ∧
        ∀ s1, loop rejectingCollaborators exampleSelf (init exampleSelf exampleData ())
            (0 + 1) = some s1 →
          s1.anisoParamSmooth[0]? =
            some ⟨min (max xv.angle 0) M_PI, min (max xv.intensity 1) 1000⟩ ∧
          ∃ rest, s1.log = (init exampleSelf exampleData ()).log ++ pre ++
              Event.isValid xv (rejectingCollaborators.isValid mid.world mid.h xv) :: rest ∧
            minimizeCalls rest = []) :=
  ⟨⟨by simp [exampleSelf_length], rfl⟩,
    smooth_validity_clamp rejectingCollaborators exampleSelf exampleData () 0
      (init exampleSelf exampleData ()) (by simp [exampleSelf_length]) rfl⟩

/-! ### C7: the box invariant -/

/-- C7, counterexample. With an optimizer that returns `(4, 2000)` and a validity
predicate that accepts it, the parameter stored in slot 0 at the end of iteration 0
is `(4, 2000)`, outside the box `[0, M_PI] x [1, 1000]`. -/
theorem smooth_stored_parameter_outside_box :
    ∃ s1, loop escapingCollaborators exampleSelf (init exampleSelf exampleData ()) 1 = some s1 ∧
      s1.anisoParamSmooth[0]? = some ⟨4, 2000⟩ ∧
      ¬ ((0 : ℚ) ≤ 4 ∧ 4 ≤ M_PI ∧ (1 : ℚ) ≤ 2000 ∧ (2000 : ℚ) ≤ 1000) := by
  obtain ⟨s1, hs1⟩ := loop_total escapingCollaborators exampleSelf exampleData ()
    (fun _ _ => by simp [escapingCollaborators, exampleCollaborators]) 1
    (by simp [exampleSelf_length])
  obtain ⟨s, mid, _, _, hs, hmid, -, -, e1, -⟩ :=
    loop_succ_recorded (by simp [exampleSelf_length]) hs1
  simp only [loop, Option.some.injEq] at hs
  subst hs
  refine ⟨s1, hs1, ?_, by norm_num [M_PI]⟩
  have h4 : ¬ ((4 : ℚ) = M_PI) := by norm_num [M_PI]
  simp [optimizePart, exampleSelf, construct, exampleData, init, warmStart, optimize, validity,
    angleZero, anglePi, callMinimize, escapingCollaborators, exampleCollaborators, h4] at hmid
  rw [e1, ← hmid]
  simp

/-- C7, as amended. Whenever the loop of `smooth` reaches the index `i`, the parameter
stored in slot `i` of `anisoParamSmooth`, which stays there until the end of the
iteration, lies in the box `[0, M_PI] x [1, 1000]` provided the validity predicate
rejects the parameter `xv` returned by the last optimizer call or `xv` already lies in
the box. -/
theorem smooth_stored_parameter_in_box (c : Collaborators W Mat Other Sol)
    (self : AnisotropicSmoothingBase) (rd : RegressionData Mat Other) (w : W) (i : ℕ)
    (s : State W Mat Other) (hi : i < self.lambda_.length)
    (hs : loop c self (init self rd w) i = some s) :
    ∃ mid xv pre post y, optimizePart c self i s = some mid ∧
      mid.events = pre ++ Event.isValid xv (c.isValid mid.world mid.h xv) :: post ∧
      ((minimizeCalls pre).getLast?).map Prod.snd = some xv ∧
      mid.anisoParamSmooth[i]? = some y ∧
      (∀ s1, loop c self (init self rd w) (i + 1) = some s1 →
        s1.anisoParamSmooth[i]? = some y) ∧
      ((c.isValid mid.world mid.h xv = false ∨
          (0 ≤ xv.angle ∧ xv.angle ≤ M_PI ∧ 1 ≤ xv.intensity ∧ xv.intensity ≤ 1000)) →
        0 ≤ y.angle ∧ y.angle ≤ M_PI ∧ 1 ≤ y.intensity ∧ y.intensity ≤ 1000) := by
  obtain ⟨mid, xv, pre, post, hmid, hev, hpost, hlast, haps⟩ :=
    optimizePart_validity c self i s hi (loop_sized hs (by omega)).1
  refine ⟨mid, xv, pre, post, _, hmid, hev, hlast, haps, ?_, ?_⟩
  · intro s1 hs1
    obtain ⟨s', mid', _, _, hs', hmid', -, -, e1, -⟩ := loop_succ_recorded hi hs1
    rw [hs] at hs'
    obtain rfl : s = s' := by simpa using hs'
    rw [hmid] at hmid'
    obtain rfl : mid = mid' := by simpa using hmid'
    rw [e1]; exact haps
  · intro h
    by_cases hv : c.isValid mid.world mid.h xv = true
    · rw [if_pos hv]
      rcases h with h | h
      · rw [hv] at h; exact absurd h (by simp)
      · exact h
    · rw [if_neg hv]
      exact clamp_inBox xv

/-- Witness of C7 as amended: the hypotheses hold on a concrete run. -/
theorem smooth_stored_parameter_in_box_witness :
    (0 < exampleSelf.lambda_.length ∧
      loop rejectingCollaborators exampleSelf (init exampleSelf exampleData ()) 0 =
        some (init exampleSelf exampleData ())) ∧
    ∃ mid xv pre post y, optimizePart rejectingCollaborators exampleSelf 0
        (init exampleSelf exampleData ()) = some mid ∧
      mid.events = pre ++
        Event.isValid xv (rejectingCollaborators.isValid mid.world mid.h xv) :: post ∧
      ((minimizeCalls pre).getLast?).map Prod.snd = some xv ∧
      mid.anisoParamSmooth[0]? = some y ∧
      (∀ s1, loop rejectingCollaborators exampleSelf (init exampleSelf exampleData ()) (0 + 1) =
          some s1 → s1.anisoParamSmooth[0]? = some y) ∧
      ((rejectingCollaborators.isValid mid.world mid.h xv = false ∨
          (0 ≤ xv.angle ∧ xv.angle ≤ M_PI ∧ 1 ≤ xv.intensity ∧ xv.intensity ≤ 1000)) →
        0 ≤ y.angle ∧ y.angle ≤ M_PI ∧ 1 ≤ y.intensity ∧ y.intensity ≤ 1000) :=
  ⟨⟨by simp [exampleSelf_length], rfl⟩,
    smooth_stored_parameter_in_box rejectingCollaborators exampleSelf exampleData () 0
      (init exampleSelf exampleData ()) (by simp [exampleSelf_length]) rfl⟩

/-! ### C8: warm start -/

/-- C8. Whenever the loop of `smooth` reaches the index `i`, the optimization block
runs and its first optimizer call starts from `(M_PI_2, 5)` (which is `(M_PI / 2, 5)`)
for `i = 0`, and for `i > 0` from the parameter held in slot `i - 1` of
`anisoParamSmooth` at the end of iteration `i - 1`. -/
theorem smooth_warm_start (c : Collaborators W Mat Other Sol) (self : AnisotropicSmoothingBase)
    (rd : RegressionData Mat Other) (w : W) (i : ℕ) (s : State W Mat Other)
    (hi : i < self.lambda_.length) (hs : loop c self (init self rd w) i = some s) :
    ∃ mid start result rest, optimizePart c self i s = some mid ∧
      minimizeCalls mid.events = (start, result) :: rest ∧
      (i = 0 → start = ⟨M_PI / 2, 5⟩) ∧
      (0 < i → s.anisoParamSmooth[i - 1]? = some start) := by
  obtain ⟨lam, x0, mid, l, -, hx0, hmid, -, -, -, hl, -, -, -, hcalls⟩ :=
    optimizePart_spec c self i s hi (loop_sized hs (by omega)).1
  obtain ⟨rest, hrest⟩ := optimize_first_call c mid.h i
    ⟨x0, s.world, [Event.Rprintf_lambda i lam, Event.newH mid.h]⟩
  refine ⟨mid, x0, (c.minimize s.world mid.h x0).1, rest, hmid, ?_, ?_, ?_⟩
  · rw [hcalls, hl, hrest]
    simp [minimizeCalls]
  · intro h0
    subst h0
    simp only [loop, Option.some.injEq] at hs
    subst hs
    have : (List.replicate self.lambda_.length (⟨M_PI_2, 5⟩ : TVector))[0]? = some ⟨M_PI_2, 5⟩ := by
      rw [List.getElem?_replicate]; simp [hi]
    simp only [init, if_true, this, Option.some.injEq] at hx0
    rw [← hx0, M_PI_2_eq]
  · intro h0
    rw [if_neg (by omega)] at hx0
    exact hx0

/-- Witness of C8: the hypotheses hold on a concrete run. -/
theorem smooth_warm_start_witness :
    (1 < exampleSelf.lambda_.length ∧
      loop exampleCollaborators exampleSelf (init exampleSelf exampleData ()) 1 =
        some exampleAfterFirst) ∧
    ∃ mid start result rest, optimizePart exampleCollaborators exampleSelf 1 exampleAfterFirst =
        some mid ∧
      minimizeCalls mid.events = (start, result) :: rest ∧
      (1 = 0 → start = ⟨M_PI / 2, 5⟩) ∧
      (0 < 1 → exampleAfterFirst.anisoParamSmooth[1 - 1]? = some start) :=
  ⟨⟨by simp [exampleSelf_length], exampleAfterFirst_reached⟩,
    smooth_warm_start exampleCollaborators exampleSelf exampleData () 1 exampleAfterFirst
      (by simp [exampleSelf_length]) exampleAfterFirst_reached⟩

/-! ### C9: the configuration on return -/

/-- C9. Let the orchestrator be constructed on the configuration `rd0`, whose coarse
grid is not empty, with `n_obs` observations and mesh area `area` (and let the score
vectors never be empty nor longer than the 70 fine-grid values, so that no lookup is
out of range). Then `smooth` returns, and on return the shared configuration holds
the single regularization value `lambdaCrossVal_[crossValSmoothInd[optIndex]]`, the
diffusion matrix `buildKappa(anisoParamSmooth[optIndex])` and the degrees-of-freedom
flag `rd0` had; its other members are those it had on entry; and the returned
anisotropy is `anisoParamSmooth[optIndex]`. -/
theorem smooth_final_configuration (c : Collaborators W Mat Other Sol)
    (rd0 rd : RegressionData Mat Other) (n_obs : ℕ) (area : ℚ) (w : W)
    (hne : rd0.lambda_ ≠ [])
    (hG : ∀ w cfg, (c.getGCV w cfg).1 ≠ [] ∧ (c.getGCV w cfg).1.length ≤ 70) :
    ∃ o fine lam aniso, smoothRun c (construct rd0 n_obs area) rd w = some o ∧
      o.optIndex = min_element o.afterLoop.gcvSmooth ∧
      o.afterLoop.crossValSmoothInd[o.optIndex]? = some fine ∧
      (seq n_obs area)[fine]? = some lam ∧
      o.afterLoop.anisoParamSmooth[o.optIndex]? = some aniso ∧
      o.regressionData_.lambda_ = [lam] ∧
      o.regressionData_.K_ = c.buildKappa aniso ∧
      o.regressionData_.DOF_ = rd0.DOF_ ∧
      o.regressionData_.other = rd.other ∧
      o.ret.2 = aniso := by
  have hlen : (construct rd0 n_obs area).lambdaCrossVal_.length = 70 := by
    simp [construct, seq, seqBase]
  have hpos : 0 < rd0.lambda_.length := List.length_pos.mpr hne
  obtain ⟨o, s, m, fine, lam, aniso, hs, ho, hal, hopt, -, -, hfine, hlam, haps, hrd, hret, -⟩ :=
    smoothRun_spec c (construct rd0 n_obs area) rd w hne (fun w cfg => by rw [hlen]; exact hG w cfg)
  subst hal
  obtain ⟨-, hother, hdof⟩ := loop_config hs le_rfl
  refine ⟨o, fine, lam, aniso, ho, hopt, hfine, hlam, haps, by rw [hrd]; rfl, by rw [hrd]; rfl,
    ?_, ?_, by rw [hret]⟩
  · rw [hrd]; exact hdof hpos
  · rw [hrd]; exact hother

/-- Witness of C9: the hypotheses hold on a concrete run. -/
theorem smooth_final_configuration_witness :
    (exampleData.lambda_ ≠ [] ∧
      ∀ w cfg, (exampleCollaborators.getGCV w cfg).1 ≠ [] ∧
        (exampleCollaborators.getGCV w cfg).1.length ≤ 70) ∧
    ∃ o fine lam aniso, smoothRun exampleCollaborators (construct exampleData 4 2)
        exampleData () = some o ∧
      o.optIndex = min_element o.afterLoop.gcvSmooth ∧
      o.afterLoop.crossValSmoothInd[o.optIndex]? = some fine ∧
      (seq 4 2)[fine]? = some lam ∧
      o.afterLoop.anisoParamSmooth[o.optIndex]? = some aniso ∧
      o.regressionData_.lambda_ = [lam] ∧
      o.regressionData_.K_ = exampleCollaborators.buildKappa aniso ∧
      o.regressionData_.DOF_ = exampleData.DOF_ ∧
      o.regressionData_.other = exampleData.other ∧
      o.ret.2 = aniso :=
  ⟨⟨by simp [exampleData], fun _ _ => by simp [exampleCollaborators]⟩,
    smooth_final_configuration exampleCollaborators exampleData exampleData 4 2 ()
      (by simp [exampleData]) (fun _ _ => by simp [exampleCollaborators])⟩

/-! ### C10: the configurations of the evaluators -/

/-- C10. Let the orchestrator be constructed on the configuration `rd0`, with `n_obs`
observations and mesh area `area`. Whenever the loop of `smooth` reaches the index
`i`, the iteration constructs exactly one energy evaluator, on a configuration whose
regularization sequence is `[lambda_[i]]`, and exactly one cross-validation evaluator,
on a configuration whose regularization sequence is the fine grid `seq n_obs area` of
70 values and whose degrees-of-freedom flag is `true`; after line 61, and at the end
of the iteration, the flag of the shared configuration is the one `rd0` had. -/
theorem smooth_evaluator_configurations (c : Collaborators W Mat Other Sol)
    (rd0 rd : RegressionData Mat Other) (n_obs : ℕ) (area : ℚ) (w : W) (i : ℕ)
    (s : State W Mat Other) (hi : i < (construct rd0 n_obs area).lambda_.length)
    (hs : loop c (construct rd0 n_obs area) (init (construct rd0 n_obs area) rd w) i = some s) :
    ∃ mid lam, optimizePart c (construct rd0 n_obs area) i s = some mid ∧
      rd0.lambda_[i]? = some lam ∧
      (∀ cfg, Event.newH cfg ∈ mid.events ↔ cfg = mid.h) ∧
      mid.h.lambda_ = [lam] ∧
      (∀ cfg, Event.newJ cfg ∈ mid.events ↔ cfg = mid.j) ∧
      mid.j.lambda_ = seq n_obs area ∧ mid.j.lambda_.length = 70 ∧ mid.j.DOF_ = true ∧
      mid.regressionData_.DOF_ = rd0.DOF_ ∧
      ∀ s1, loop c (construct rd0 n_obs area) (init (construct rd0 n_obs area) rd w) (i + 1) =
          some s1 → s1.regressionData_.DOF_ = rd0.DOF_ := by
  obtain ⟨mid, lam, hmid, hlam, eh, ej, er, hH, hJ⟩ :=
    optimizePart_evaluators c (construct rd0 n_obs area) i s hi (loop_sized hs (by omega)).1
  have hjl : mid.j.lambda_ = seq n_obs area := by rw [ej]; rfl
  refine ⟨mid, lam, hmid, hlam, hH, by rw [eh]; rfl, hJ, hjl, ?_, by rw [ej]; rfl,
    by rw [er]; rfl, ?_⟩
  · rw [hjl]; simp [seq, seqBase]
  · intro s1 hs1
    exact (loop_config hs1 (by omega)).2.2 (by omega)

/-- Witness of C10: the hypotheses hold on a concrete run. -/
theorem smooth_evaluator_configurations_witness :
    (1 < (construct exampleData 4 2).lambda_.length ∧
      loop exampleCollaborators (construct exampleData 4 2)
        (init (construct exampleData 4 2) exampleData ()) 1 = some exampleAfterFirst) ∧
    ∃ mid lam, optimizePart exampleCollaborators (construct exampleData 4 2) 1
        exampleAfterFirst = some mid ∧
      exampleData.lambda_[1]? = some lam ∧
      (∀ cfg, Event.newH cfg ∈ mid.events ↔ cfg = mid.h) ∧
      mid.h.lambda_ = [lam] ∧
      (∀ cfg, Event.newJ cfg ∈ mid.events ↔ cfg = mid.j) ∧
      mid.j.lambda_ = seq 4 2 ∧ mid.j.lambda_.length = 70 ∧ mid.j.DOF_ = true ∧
      mid.regressionData_.DOF_ = exampleData.DOF_ ∧
      ∀ s1, loop exampleCollaborators (construct exampleData 4 2)
          (init (construct exampleData 4 2) exampleData ()) (1 + 1) =
          some s1 → s1.regressionData_.DOF_ = exampleData.DOF_ :=
  ⟨⟨by simp [construct, exampleData], exampleAfterFirst_reached⟩,
    smooth_evaluator_configurations exampleCollaborators exampleData exampleData 4 2 () 1
      exampleAfterFirst (by simp [construct, exampleData]) exampleAfterFirst_reached⟩

/-! ### C11: homogeneity of the fine grid -/

/-- C11. For every `n_obs > 0`, every `area > 0` and every positive integer factor `c`,
`seq (c * n_obs) area` has as many elements as `seq n_obs area`, and its element at
each index is `c` times the element of `seq n_obs area` at the same index. -/
theorem seq_homogeneous (n_obs : ℕ) (area : ℚ) (c : ℕ) (_hn : 0 < n_obs) (_ha : 0 < area)
    (_hc : 0 < c) :
    (seq (c * n_obs) area).length = (seq n_obs area).length ∧
    ∀ (j : ℕ) (x : ℚ), (seq n_obs area)[j]? = some x →
      (seq (c * n_obs) area)[j]? = some ((c : ℚ) * x) := by
  rw [seq_mul]
  refine ⟨by simp, ?_⟩
  intro j x hx
  simp [List.getElem?_map, hx]

/-- Witness of C11: the hypotheses hold for 3 observations, area 2 and factor 5. -/
theorem seq_homogeneous_witness :
    (0 < 3 ∧ (0 : ℚ) < 2 ∧ 0 < 5) ∧
    ((seq (5 * 3) 2).length = (seq 3 2).length ∧
    ∀ (j : ℕ) (x : ℚ), (seq 3 2)[j]? = some x →
      (seq (5 * 3) 2)[j]? = some (((5 : ℕ) : ℚ) * x)) :=
  ⟨⟨by decide, by norm_num, by decide⟩,
    seq_homogeneous 3 2 5 (by decide) (by norm_num) (by decide)⟩

/-! ### C12: the end-to-end scenario -/

/-- C12. Let the orchestrator be constructed on a configuration whose coarse grid is
`[0.01, 0.1]`, with `n_obs > 0` observations and mesh area `area > 0`; let the
optimizer return its starting point, the validity predicate accept `(M_PI_2, 5)`, and
the scores be the fine-grid values in outer iteration 0 and twice the fine-grid values
in outer iteration 1. Then `smooth` returns, `optIndex` is `0`, the fine index
recorded for it is `0`, and the returned anisotropy is `(M_PI / 2, 5)`. -/
theorem smooth_end_to_end (c : Collaborators W Mat Other Sol)
    (rd0 rd : RegressionData Mat Other) (n_obs : ℕ) (area : ℚ) (w : W)
    (hn : 0 < n_obs) (ha : 0 < area) (hgrid : rd0.lambda_ = [0.01, 0.1])
    (hmin : ∀ w cfg x, (c.minimize w cfg x).1 = x)
    (hval : ∀ w cfg, c.isValid w cfg ⟨M_PI_2, 5⟩ = true)
    (hg0 : ∀ s mid,
      loop c (construct rd0 n_obs area) (init (construct rd0 n_obs area) rd w) 0 = some s →
      optimizePart c (construct rd0 n_obs area) 0 s = some mid →
      (c.getGCV mid.world mid.j).1 = seq n_obs area)
    (hg1 : ∀ s mid,
      loop c (construct rd0 n_obs area) (init (construct rd0 n_obs area) rd w) 1 = some s →
      optimizePart c (construct rd0 n_obs area) 1 s = some mid →
      (c.getGCV mid.world mid.j).1 = (seq n_obs area).map (fun v => 2 * v)) :
    ∃ o, smoothRun c (construct rd0 n_obs area) rd w = some o ∧
      smooth c (construct rd0 n_obs area) rd w = some o.ret ∧
      o.optIndex = 0 ∧
      o.afterLoop.crossValSmoothInd[o.optIndex]? = some 0 ∧
      o.ret.2 = ⟨M_PI / 2, 5⟩ := by
  obtain ⟨x, t, hF, hxpos, hlt⟩ := seq_head hn ha
  have hn2 : (construct rd0 n_obs area).lambda_.length = 2 := by simp [construct, hgrid]
  have hcv : (construct rd0 n_obs area).lambdaCrossVal_ = x :: t := hF
  -- iteration 0
  have hl0 : loop c (construct rd0 n_obs area) (init (construct rd0 n_obs area) rd w) 0 =
      some (init (construct rd0 n_obs area) rd w) := rfl
  obtain ⟨mid0, hmid0, hr0⟩ := scenario_round c (construct rd0 n_obs area) 0
    (init (construct rd0 n_obs area) rd w) hmin hval (by omega) (by simp [init])
    (by simp [init, hn2])
  obtain ⟨s1, hit0, a1, c1, g1⟩ := hr0 x t (by rw [hg0 _ _ hl0 hmid0, hF]) hlt
  have hl1 : loop c (construct rd0 n_obs area) (init (construct rd0 n_obs area) rd w) 1 =
      some s1 := by
    simp only [loop, Option.some_bind, hit0]
  simp only [init, hn2] at a1 c1 g1
  -- iteration 1
  obtain ⟨mid1, hmid1, hr1⟩ := scenario_round c (construct rd0 n_obs area) 1 s1 hmin hval
    (by omega) (by rw [a1, hn2]; rfl) (by rw [a1]; rfl)
  obtain ⟨s2, hit1, a2, c2, g2⟩ := hr1 (2 * x) (t.map (fun v => 2 * v))
    (by rw [hg1 _ _ hl1 hmid1, hF]; rfl)
    (by
      intro y hy
      obtain ⟨z, hz, rfl⟩ := List.mem_map.mp hy
      have := hlt z hz
      linarith)
  have hl2 : loop c (construct rd0 n_obs area) (init (construct rd0 n_obs area) rd w)
      (construct rd0 n_obs area).lambda_.length = some s2 := by
    rw [hn2]
    simp only [loop, Option.some_bind, hit0, hit1]
  rw [a1] at a2
  rw [c1] at c2
  rw [g1] at g2
  have hmin2 : min_element s2.gcvSmooth = 0 := by
    rw [g2]
    have : ¬ (2 * x < x) := by linarith
    simp [min_element, minScan, List.replicate, this]
  have hret : smoothRun c (construct rd0 n_obs area) rd w = some
      { ret := ((c.regressionFinal s2.world
          ((s2.regressionData_.setLambda [x]).setK (c.buildKappa ⟨M_PI_2, 5⟩))).1, ⟨M_PI_2, 5⟩)
        optIndex := 0
        afterLoop := s2
        regressionData_ := (s2.regressionData_.setLambda [x]).setK (c.buildKappa ⟨M_PI_2, 5⟩)
        world := (c.regressionFinal s2.world
          ((s2.regressionData_.setLambda [x]).setK (c.buildKappa ⟨M_PI_2, 5⟩))).2
        log := s2.log ++ [Event.regressionFinal
          ((s2.regressionData_.setLambda [x]).setK (c.buildKappa ⟨M_PI_2, 5⟩)),
          Event.Rprintf_time_final, Event.Rprintf_time_total] } := by
    simp [smoothRun, hl2, hmin2, a2, c2, hcv, List.replicate]
  refine ⟨_, hret, by simp [smooth, hret], rfl, ?_, ?_⟩
  · simp [c2, List.replicate]
  · simp [M_PI_2_eq]

/-- Witness of C12: the hypotheses hold for the stubs `scenarioCollaborators 4 2` on
`exampleData`. -/
theorem smooth_end_to_end_witness :
    (0 < 4 ∧ (0 : ℚ) < 2 ∧ exampleData.lambda_ = [0.01, 0.1] ∧
      (∀ w cfg x, ((scenarioCollaborators 4 2).minimize w cfg x).1 = x) ∧
      (∀ w cfg, (scenarioCollaborators 4 2).isValid w cfg ⟨M_PI_2, 5⟩ = true) ∧
      (∀ s mid,
        loop (scenarioCollaborators 4 2) (construct exampleData 4 2)
          (init (construct exampleData 4 2) exampleData 0) 0 = some s →
        optimizePart (scenarioCollaborators 4 2) (construct exampleData 4 2) 0 s = some mid →
        ((scenarioCollaborators 4 2).getGCV mid.world mid.j).1 = seq 4 2) ∧
      (∀ s mid,
        loop (scenarioCollaborators 4 2) (construct exampleData 4 2)
          (init (construct exampleData 4 2) exampleData 0) 1 = some s →
        optimizePart (scenarioCollaborators 4 2) (construct exampleData 4 2) 1 s = some mid →
        ((scenarioCollaborators 4 2).getGCV mid.world mid.j).1 =
          (seq 4 2).map (fun v => 2 * v))) ∧
    ∃ o, smoothRun (scenarioCollaborators 4 2) (construct exampleData 4 2) exampleData 0 =
        some o ∧
      smooth (scenarioCollaborators 4 2) (construct exampleData 4 2) exampleData 0 =
        some o.ret ∧
      o.optIndex = 0 ∧
      o.afterLoop.crossValSmoothInd[o.optIndex]? = some 0 ∧
      o.ret.2 = ⟨M_PI / 2, 5⟩ :=
  ⟨⟨by decide, by norm_num, rfl, fun _ _ _ => rfl,
      fun _ _ => by simp [scenarioCollaborators],
      fun s mid hs hmid => by
        rw [scenario_scores 4 2 _ exampleData 0 s mid (by simp [construct, exampleData]) hs hmid]
        rfl,
      fun s mid hs hmid => by
        rw [scenario_scores 4 2 _ exampleData 1 s mid (by simp [construct, exampleData]) hs hmid]
        rfl⟩,
    smooth_end_to_end (scenarioCollaborators 4 2) exampleData exampleData 4 2 0 (by decide)
      (by norm_num) rfl (fun _ _ _ => rfl) (fun _ _ => by simp [scenarioCollaborators])
      (fun s mid hs hmid => by
        rw [scenario_scores 4 2 _ exampleData 0 s mid (by simp [construct, exampleData]) hs hmid]
        rfl)
      (fun s mid hs hmid => by
        rw [scenario_scores 4 2 _ exampleData 1 s mid (by simp [construct, exampleData]) hs hmid]
        rfl)⟩

/-! ### C13: an optimizer that always returns the angle pi -/

/-- C13. If every optimizer call returns an angle equal to `M_PI`, then whenever the
loop of `smooth` reaches the index `i`, the iteration makes exactly two optimizer
calls, the second one started from angle `0` with the intensity returned by the first;
it emits the message "Angle equal to pi" exactly once, for the iteration `i`, and the
message "Angle equal to 0" never; and no further optimizer call or such message
occurs before the end of the iteration. -/
theorem smooth_always_pi (c : Collaborators W Mat Other Sol)
    (self : AnisotropicSmoothingBase) (rd : RegressionData Mat Other) (w : W) (i : ℕ)
    (s : State W Mat Other) (hpi : ∀ w cfg x, (c.minimize w cfg x).1.angle = M_PI)
    (hi : i < self.lambda_.length) (hs : loop c self (init self rd w) i = some s) :
    ∃ mid start r1 r2, optimizePart c self i s = some mid ∧
      minimizeCalls mid.events = [(start, r1), (⟨0, r1.intensity⟩, r2)] ∧
      anglePiReports mid.events = [i] ∧
      angleZeroReports mid.events = [] ∧
      ∀ s1, loop c self (init self rd w) (i + 1) = some s1 →
        ∃ rest, s1.log = s.log ++ mid.events ++ rest ∧ minimizeCalls rest = [] ∧
          anglePiReports rest = [] ∧ angleZeroReports rest = [] := by
  obtain ⟨mid, x0, l0, hmid, -, -, -, hcalls, hl0, hpir, hzer⟩ :=
    optimizePart_periodicity c self i s hi (loop_sized hs (by omega)).1
  refine ⟨mid, l0.x, (c.minimize l0.world mid.h l0.x).1,
    (c.minimize (c.minimize l0.world mid.h l0.x).2 mid.h
      ⟨0, (c.minimize l0.world mid.h l0.x).1.intensity⟩).1, hmid, ?_, ?_, ?_, ?_⟩
  · rw [hcalls, optimize_calls, hl0, if_pos (hpi _ _ _), if_neg]
    · rfl
    · rw [hpi]; exact M_PI_ne_zero
  · rw [hpir, if_pos (hpi _ _ _)]
  · rw [hzer, if_pos (hpi _ _ _), if_neg]
    rw [hpi]; exact M_PI_ne_zero
  · intro s1 hs1
    obtain ⟨-, elog⟩ := loop_succ_log hs hmid hs1
    exact ⟨_, elog, by simp [minimizeCalls], by simp [anglePiReports],
      by simp [angleZeroReports]⟩

/-- Witness of C13: the hypotheses hold on a concrete run. -/
theorem smooth_always_pi_witness :
    ((∀ w cfg x, (alwaysPiCollaborators.minimize w cfg x).1.angle = M_PI) ∧
      0 < exampleSelf.lambda_.length ∧
      loop alwaysPiCollaborators exampleSelf (init exampleSelf exampleData ()) 0 =
        some (init exampleSelf exampleData ())) ∧
    ∃ mid start r1 r2, optimizePart alwaysPiCollaborators exampleSelf 0
        (init exampleSelf exampleData ()) = some mid ∧
      minimizeCalls mid.events = [(start, r1), (⟨0, r1.intensity⟩, r2)] ∧
      anglePiReports mid.events = [0] ∧
      angleZeroReports mid.events = [] ∧
      ∀ s1, loop alwaysPiCollaborators exampleSelf (init exampleSelf exampleData ()) (0 + 1) =
          some s1 →
        ∃ rest, s1.log = (init exampleSelf exampleData ()).log ++ mid.events ++ rest ∧
          minimizeCalls rest = [] ∧ anglePiReports rest = [] ∧ angleZeroReports rest = [] :=
  ⟨⟨fun _ _ _ => rfl, by simp [exampleSelf_length], rfl⟩,
    smooth_always_pi alwaysPiCollaborators exampleSelf exampleData () 0
      (init exampleSelf exampleData ()) (fun _ _ _ => rfl) (by simp [exampleSelf_length]) rfl⟩

/-! ### C14: `computeMeshLoc` -/

/-- C14. When the configuration says that the locations are given by nodes,
`computeMeshLoc` returns the list of the points `getPoint id` for the observation
indices `id`, in their order: it is as long as the list of indices and its `k`-th
element is `getPoint` of the `k`-th index, for every `k`. Otherwise it returns the
empty list. -/
theorem computeMeshLoc_spec {Point : Type} (observationsIndices : List ℕ)
    (getPoint : ℕ → Point) :
    computeMeshLoc true observationsIndices getPoint =
      some (observationsIndices.map getPoint) ∧
    (observationsIndices.map getPoint).length = observationsIndices.length ∧
    (∀ k : ℕ, (observationsIndices.map getPoint)[k]? = (observationsIndices[k]?).map getPoint) ∧
    computeMeshLoc false observationsIndices getPoint = some [] := by
  refine ⟨?_, by simp, fun k => by simp [List.getElem?_map], by simp [computeMeshLoc]⟩
  simp [computeMeshLoc, computeMeshLocLoop_eq getPoint observationsIndices _ le_rfl]

/-! ### C15: the non-specialized `smooth` -/

/-- C15. For every configuration and every state of the collaborators, the `smooth` of
the non-specialized `AnisotropicSmoothing` returns an empty coefficient sequence and
emits exactly one event, the diagnostic message; it makes no optimizer call, constructs
no evaluator, asks for no scores and runs no final fit; and it leaves the
configuration and the collaborators as they were. -/
theorem smooth_not_implemented {VectorXr : Type} (rd : RegressionData Mat Other) (w : W)
    (unspecified : TVector) :
    (AnisotropicSmoothing.smooth rd w unspecified : AnisotropicSmoothing.Outcome W Mat Other
        VectorXr).ret.1 = [] ∧
    (AnisotropicSmoothing.smooth rd w unspecified : AnisotropicSmoothing.Outcome W Mat Other
        VectorXr).log = [Event.REprintf_not_implemented] ∧
    (AnisotropicSmoothing.smooth rd w unspecified : AnisotropicSmoothing.Outcome W Mat Other
        VectorXr).regressionData_ = rd ∧
    (AnisotropicSmoothing.smooth rd w unspecified : AnisotropicSmoothing.Outcome W Mat Other
        VectorXr).world = w ∧
    minimizeCalls (AnisotropicSmoothing.smooth rd w unspecified :
      AnisotropicSmoothing.Outcome W Mat Other VectorXr).log = [] :=
  ⟨rfl, rfl, rfl, rfl, rfl⟩

/-! ### C16: `createRegressionData(lambda)` -/

/-- C16, the code at a failing input. On `exampleElliptic`, whose diffusion matrix is
`(0, 1)`, when the uninitialized local `kappa` happens to hold `(7, 7)`,
`createRegressionData(0.5)` returns a configuration with the regularization sequence
`[0.5]` and every other member copied, except the diffusion matrix, which is `(7, 7)`
and not the one of the current configuration. -/
theorem createRegressionData_lambda_kappa :
    AnisotropicSmoothing.createRegressionData_lambda exampleElliptic ⟨7, 7⟩ 0.5 =
      { exampleElliptic with lambda_ := [0.5], K_ := ⟨7, 7⟩ } ∧
    (AnisotropicSmoothing.createRegressionData_lambda exampleElliptic ⟨7, 7⟩ 0.5).K_ ≠
      exampleElliptic.K_ := by
  refine ⟨rfl, ?_⟩
  rw [createRegressionData_lambda_eq]
  simp [exampleElliptic, RegressionDataElliptic.construct]

/-! ### C17: `createRegressionData(anisoParam)` -/

/-- C17, counterexample. On `exampleElliptic`, whose regularization sequence is
`[0.01, 0.1]`, with the fine grid of `exampleSelf`, `createRegressionData((1, 2))`
returns a configuration whose regularization sequence has 70 values: it is the fine
grid, not the sequence of the current configuration. -/
theorem createRegressionData_anisoParam_lambda :
    (AnisotropicSmoothing.createRegressionData_anisoParam exampleSelf exampleElliptic
      (fun x => x) ⟨1, 2⟩).lambda_ = seq 4 2 ∧
    (AnisotropicSmoothing.createRegressionData_anisoParam exampleSelf exampleElliptic
      (fun x => x) ⟨1, 2⟩).lambda_.length = 70 ∧
    exampleElliptic.lambda_.length = 2 ∧
    (AnisotropicSmoothing.createRegressionData_anisoParam exampleSelf exampleElliptic
      (fun x => x) ⟨1, 2⟩).lambda_ ≠ exampleElliptic.lambda_ := by
  have h1 : (AnisotropicSmoothing.createRegressionData_anisoParam exampleSelf exampleElliptic
      (fun x => x) ⟨1, 2⟩).lambda_ = seq 4 2 := rfl
  have h2 : (seq 4 2).length = 70 := by simp [seq, seqBase_length]
  have h3 : exampleElliptic.lambda_.length = 2 := rfl
  refine ⟨h1, by rw [h1, h2], h3, ?_⟩
  intro h
  have := congrArg List.length h
  rw [h1, h2, h3] at this
  omega

/-- C17, as amended. For the elliptic variant, `createRegressionData(anisoParam)`
returns a configuration that differs from the current one only in its diffusion
matrix, which is `buildKappa(anisoParam)`, its degrees-of-freedom flag, which is
`true`, and its regularization sequence, which is the fine grid `lambdaCrossVal_`:
every other member equals that of the current configuration. -/
theorem createRegressionData_anisoParam_spec {Mat Point VectorXr MatrixXr : Type}
    (self : AnisotropicSmoothingBase)
    (rd : RegressionDataElliptic Mat Point VectorXr MatrixXr) (buildKappa : TVector → Mat)
    (anisoParam : TVector) :
    (AnisotropicSmoothing.createRegressionData_anisoParam self rd buildKappa
      anisoParam).K_ = buildKappa anisoParam ∧
    (AnisotropicSmoothing.createRegressionData_anisoParam self rd buildKappa
      anisoParam).DOF_ = true ∧
    (AnisotropicSmoothing.createRegressionData_anisoParam self rd buildKappa
      anisoParam).lambda_ = self.lambdaCrossVal_ ∧
    (AnisotropicSmoothing.createRegressionData_anisoParam self rd buildKappa
      anisoParam).other = rd.other ∧
    AnisotropicSmoothing.createRegressionData_anisoParam self rd buildKappa anisoParam =
      { rd with lambda_ := self.lambdaCrossVal_, K_ := buildKappa anisoParam, DOF_ := true } :=
  ⟨rfl, rfl, rfl, rfl, rfl⟩

/-! ### C18: the number of optimizer calls -/

/-- C18. Whenever the loop of `smooth` reaches the index `i`, the iteration makes one,
two or three optimizer calls. The first is always made. When it returns the angle
`M_PI`, the message "Angle equal to pi" is emitted and a second call is made from
angle `0`; when that one returns the angle `0`, the message "Angle equal to 0" is
emitted too and a third call is made from angle `M_PI`, otherwise there is no third
call. When the first call returns an angle other than `M_PI`, there is no call from
angle `0`; a second and last call is made from angle `M_PI`, with the message "Angle
equal to 0", exactly when the first returned the angle `0`. -/
theorem smooth_optimizer_call_count (c : Collaborators W Mat Other Sol)
    (self : AnisotropicSmoothingBase) (rd : RegressionData Mat Other) (w : W) (i : ℕ)
    (s : State W Mat Other) (hi : i < self.lambda_.length)
    (hs : loop c self (init self rd w) i = some s) :
    ∃ mid start r1 rest, optimizePart c self i s = some mid ∧
      minimizeCalls mid.events = (start, r1) :: rest ∧
      (1 ≤ (minimizeCalls mid.events).length ∧ (minimizeCalls mid.events).length ≤ 3) ∧
      (r1.angle = M_PI →
        anglePiReports mid.events = [i] ∧
        ∃ r2 rest2, rest = (⟨0, r1.intensity⟩, r2) :: rest2 ∧
          (r2.angle = 0 →
            angleZeroReports mid.events = [i] ∧ ∃ r3, rest2 = [(⟨M_PI, r2.intensity⟩, r3)]) ∧
          (r2.angle ≠ 0 → angleZeroReports mid.events = [] ∧ rest2 = [])) ∧
      (r1.angle ≠ M_PI →
        anglePiReports mid.events = [] ∧
        (r1.angle = 0 →
          angleZeroReports mid.events = [i] ∧ ∃ r3, rest = [(⟨M_PI, r1.intensity⟩, r3)]) ∧
        (r1.angle ≠ 0 → angleZeroReports mid.events = [] ∧ rest = [])) := by
  obtain ⟨mid, x0, l0, hmid, -, -, -, hcalls, hl0, hpir, hzer⟩ :=
    optimizePart_periodicity c self i s hi (loop_sized hs (by omega)).1
  rw [optimize_calls, hl0, List.nil_append] at hcalls
  by_cases h1 : (c.minimize l0.world mid.h l0.x).1.angle = M_PI
  · rw [if_pos h1] at hcalls hpir hzer
    by_cases h2 : (c.minimize (c.minimize l0.world mid.h l0.x).2 mid.h
        ⟨0, (c.minimize l0.world mid.h l0.x).1.intensity⟩).1.angle = 0
    · rw [if_pos h2] at hcalls hzer
      exact ⟨mid, _, _, _, hmid, hcalls, by rw [hcalls]; simp,
        fun _ => ⟨hpir, _, _, rfl, fun _ => ⟨hzer, _, rfl⟩, fun h => absurd h2 h⟩,
        fun h => absurd h1 h⟩
    · rw [if_neg h2] at hcalls hzer
      exact ⟨mid, _, _, _, hmid, hcalls, by rw [hcalls]; simp,
        fun _ => ⟨hpir, _, _, rfl, fun h => absurd h h2, fun _ => ⟨hzer, rfl⟩⟩,
        fun h => absurd h1 h⟩
  · rw [if_neg h1] at hcalls hpir hzer
    by_cases h0 : (c.minimize l0.world mid.h l0.x).1.angle = 0
    · rw [if_pos h0] at hcalls hzer
      exact ⟨mid, _, _, _, hmid, hcalls, by rw [hcalls]; simp, fun h => absurd h h1,
        fun _ => ⟨hpir, fun _ => ⟨hzer, _, rfl⟩, fun h => absurd h0 h⟩⟩
    · rw [if_neg h0] at hcalls hzer
      exact ⟨mid, _, _, _, hmid, hcalls, by rw [hcalls]; simp, fun h => absurd h h1,
        fun _ => ⟨hpir, fun h => absurd h h0, fun _ => ⟨hzer, rfl⟩⟩⟩

/-- Witness of C18: the hypotheses hold on a concrete run. -/
theorem smooth_optimizer_call_count_witness :
    (0 < exampleSelf.lambda_.length ∧
      loop boundaryCollaborators exampleSelf (init exampleSelf exampleData ()) 0 =
        some (init exampleSelf exampleData ())) ∧
    ∃ mid start r1 rest, optimizePart boundaryCollaborators exampleSelf 0
        (init exampleSelf exampleData ()) = some mid ∧
      minimizeCalls mid.events = (start, r1) :: rest ∧
      (1 ≤ (minimizeCalls mid.events).length ∧ (minimizeCalls mid.events).length ≤ 3) ∧
      (r1.angle = M_PI →
        anglePiReports mid.events = [0] ∧
        ∃ r2 rest2, rest = (⟨0, r1.intensity⟩, r2) :: rest2 ∧
          (r2.angle = 0 →
            angleZeroReports mid.events = [0] ∧ ∃ r3, rest2 = [(⟨M_PI, r2.intensity⟩, r3)]) ∧
          (r2.angle ≠ 0 → angleZeroReports mid.events = [] ∧ rest2 = [])) ∧
      (r1.angle ≠ M_PI →
        anglePiReports mid.events = [] ∧
        (r1.angle = 0 →
          angleZeroReports mid.events = [0] ∧ ∃ r3, rest = [(⟨M_PI, r1.intensity⟩, r3)]) ∧
        (r1.angle ≠ 0 → angleZeroReports mid.events = [] ∧ rest = [])) :=
  ⟨⟨by simp [exampleSelf_length], rfl⟩,
    smooth_optimizer_call_count boundaryCollaborators exampleSelf exampleData () 0
      (init exampleSelf exampleData ()) (by simp [exampleSelf_length]) rfl⟩

/-! ### C19: index lookups -/

/-- C19. Let the orchestrator be constructed on the configuration `rd0`. If the coarse
grid of `rd0` is not empty and every score vector has 70 entries, `smooth` returns
and every index lookup is in range: `anisoParamSmooth[i-1]` at the head of every
iteration `i > 0`, and after the loop `gcvSmooth[optIndex]`,
`anisoParamSmooth[optIndex]`, `crossValSmoothInd[optIndex]`, whose value is below 70,
and `lambdaCrossVal_` at that value. Nothing checks that the coarse grid is not empty:
on the same configuration with an empty coarse grid the loop body never runs,
`optIndex` is `0`, the three vectors are empty and the lookup at index `0` is out of
range. -/
theorem smooth_lookups_in_range (c : Collaborators W Mat Other Sol)
    (rd0 rd : RegressionData Mat Other) (n_obs : ℕ) (area : ℚ) (w : W)
    (hne : rd0.lambda_ ≠ []) (hG : ∀ w cfg, (c.getGCV w cfg).1.length = 70) :
    (∃ o m fine lam aniso, smoothRun c (construct rd0 n_obs area) rd w = some o ∧
      (∀ i, 0 < i → i < rd0.lambda_.length →
        ∃ s x, loop c (construct rd0 n_obs area) (init (construct rd0 n_obs area) rd w) i =
            some s ∧ s.anisoParamSmooth[i - 1]? = some x) ∧
      o.optIndex = min_element o.afterLoop.gcvSmooth ∧
      o.afterLoop.gcvSmooth[o.optIndex]? = some m ∧
      o.afterLoop.anisoParamSmooth[o.optIndex]? = some aniso ∧
      o.afterLoop.crossValSmoothInd[o.optIndex]? = some fine ∧
      fine < 70 ∧
      (construct rd0 n_obs area).lambdaCrossVal_[fine]? = some lam) ∧
    (smoothRun c (construct (rd0.setLambda []) n_obs area) rd w = none ∧
      loop c (construct (rd0.setLambda []) n_obs area)
        (init (construct (rd0.setLambda []) n_obs area) rd w)
        (construct (rd0.setLambda []) n_obs area).lambda_.length =
          some (init (construct (rd0.setLambda []) n_obs area) rd w) ∧
      min_element (init (construct (rd0.setLambda []) n_obs area) rd w).gcvSmooth = 0 ∧
      (init (construct (rd0.setLambda []) n_obs area) rd w).gcvSmooth[0]? = none ∧
      (init (construct (rd0.setLambda []) n_obs area) rd w).crossValSmoothInd[0]? = none ∧
      (init (construct (rd0.setLambda []) n_obs area) rd w).anisoParamSmooth[0]? = none) := by
  have hlen : (construct rd0 n_obs area).lambdaCrossVal_.length = 70 := by
    simp [construct, seq, seqBase]
  have hG1 : ∀ w cfg, (c.getGCV w cfg).1 ≠ [] := by
    intro w cfg h
    have := hG w cfg
    rw [h] at this
    simp at this
  constructor
  · obtain ⟨o, s, m, fine, lam, aniso, hs, ho, hal, hopt, -, hfm, hfine, hlam, haps, -⟩ :=
      smoothRun_spec c (construct rd0 n_obs area) rd w hne
        (fun w cfg => ⟨hG1 w cfg, by rw [hlen, hG w cfg]⟩)
    subst hal
    refine ⟨o, m, fine, lam, aniso, ho, ?_, hopt, hfm.1, haps, hfine, ?_, hlam⟩
    · intro i h0 hi
      obtain ⟨s, hs⟩ := loop_total c (construct rd0 n_obs area) rd w hG1 i (le_of_lt hi)
      have hsz := (loop_sized hs (le_of_lt hi)).1
      exact ⟨s, _, hs, List.getElem?_eq_getElem (by rw [hsz]; exact lt_of_le_of_lt (Nat.sub_le i 1) hi)⟩
    · by_contra hc
      rw [List.getElem?_eq_none (by rw [hlen]; omega)] at hlam
      exact absurd hlam (by simp)
  · simp [smoothRun, loop, init, construct, RegressionData.setLambda, min_element]

/-- Witness of C19: the hypotheses hold for the stubs `scenarioCollaborators 4 2` on
`exampleData`. -/
theorem smooth_lookups_in_range_witness :
    (exampleData.lambda_ ≠ [] ∧
      ∀ w cfg, ((scenarioCollaborators 4 2).getGCV w cfg).1.length = 70) ∧
    ((∃ o m fine lam aniso, smoothRun (scenarioCollaborators 4 2) (construct exampleData 4 2)
        exampleData 0 = some o ∧
      (∀ i, 0 < i → i < exampleData.lambda_.length →
        ∃ s x, loop (scenarioCollaborators 4 2) (construct exampleData 4 2)
            (init (construct exampleData 4 2) exampleData 0) i = some s ∧
          s.anisoParamSmooth[i - 1]? = some x) ∧
      o.optIndex = min_element o.afterLoop.gcvSmooth ∧
      o.afterLoop.gcvSmooth[o.optIndex]? = some m ∧
      o.afterLoop.anisoParamSmooth[o.optIndex]? = some aniso ∧
      o.afterLoop.crossValSmoothInd[o.optIndex]? = some fine ∧
      fine < 70 ∧
      (construct exampleData 4 2).lambdaCrossVal_[fine]? = some lam) ∧
    (smoothRun (scenarioCollaborators 4 2) (construct (exampleData.setLambda []) 4 2)
        exampleData 0 = none ∧
      loop (scenarioCollaborators 4 2) (construct (exampleData.setLambda []) 4 2)
        (init (construct (exampleData.setLambda []) 4 2) exampleData 0)
        (construct (exampleData.setLambda []) 4 2).lambda_.length =
          some (init (construct (exampleData.setLambda []) 4 2) exampleData 0) ∧
      min_element (init (construct (exampleData.setLambda []) 4 2) exampleData 0).gcvSmooth =
        0 ∧
      (init (construct (exampleData.setLambda []) 4 2) exampleData 0).gcvSmooth[0]? = none ∧
      (init (construct (exampleData.setLambda []) 4 2) exampleData 0).crossValSmoothInd[0]? =
        none ∧
      (init (construct (exampleData.setLambda []) 4 2) exampleData 0).anisoParamSmooth[0]? =
        none)) :=
  ⟨⟨by simp [exampleData], fun w _ => by
      by_cases h : w = 0 <;> simp [scenarioCollaborators, h, seq, seqBase]⟩,
    smooth_lookups_in_range (scenarioCollaborators 4 2) exampleData exampleData 4 2 0
      (by simp [exampleData]) (fun w _ => by
        by_cases h : w = 0 <;> simp [scenarioCollaborators, h, seq, seqBase])⟩

end AnisotropicSmoothingBase
